import Mathlib

/-!
Verification of the compound-type resolution pipeline of solface.

The definitions below are a shallow embedding of `interface.go` and the value
model of the ABI decoder.  Go's mutable counters (which the source passes by
pointer) become explicit state that every function takes and returns; a nil
`*int` name counter is modelled as `none : Option Nat`.
-/

set_option maxHeartbeats 1000000

/-- The ABI parameter model `Value`: a name, a type string, an internal type
string, and an ordered list of component parameters. -/
inductive Value : Type where
  | mk : String → String → String → List Value → Value

/-- Accessor for the `Name` field of a `Value`. -/
def Value.name : Value → String
  | .mk x _ _ _ => x

/-- Accessor for the `Type` field of a `Value`. -/
def Value.type : Value → String
  | .mk _ x _ _ => x

/-- Accessor for the `InternalType` field of a `Value`. -/
def Value.internalType : Value → String
  | .mk _ _ x _ => x

/-- Accessor for the `Components` field of a `Value`. -/
def Value.components : Value → List Value
  | .mk _ _ _ x => x

/-- Go `Value.IsCompoundType`: `len(v.Components) > 0`. -/
def Value.IsCompoundType (v : Value) : Bool := v.components.length > 0

/-- Go `NamedValue`: a named member of a compound type. -/
structure NamedValue where
  name : String
  value : Value

/-- Go `CompoundType`: a synthesized type name together with its members. -/
structure CompoundType where
  typeName : String
  members : List NamedValue

/-- Go `EventArgument`: an embedded `Value` plus the `Indexed` flag. -/
structure EventArgument where
  value : Value
  indexed : Bool

/-- Go `EventItem`. -/
structure EventItem where
  type : String
  name : String
  inputs : List EventArgument
  anonymous : Bool

/-- Go `FunctionItem`. -/
structure FunctionItem where
  type : String
  name : String
  inputs : List Value
  outputs : List Value
  stateMutability : String

/-- Go `ErrorItem`. -/
structure ErrorItem where
  type : String
  name : String
  inputs : List Value

/-- Go `DecodedABI`. -/
structure DecodedABI where
  events : List EventItem
  functions : List FunctionItem
  errors : List ErrorItem

/-- Go `DecodedABIWithCompundTypes` (sic). -/
structure DecodedABIWithCompundTypes where
  originalABI : DecodedABI
  compoundTypes : List CompoundType
  enrichedABI : DecodedABI

/-- Go `GenerateName`: produces `fmt.Sprintf("Attribute%d", *nameCounter)` and
increments the counter; here the counter is threaded explicitly. -/
def GenerateName (nameCounter : Nat) : String × Nat :=
  ("Attribute" ++ Nat.repr nameCounter, nameCounter + 1)

/-- Go `strings.HasPrefix`, on the character sequence of the string. -/
def hasPre (s p : String) : Bool := p.data.isPrefixOf s.data

/-- Go `strings.HasSuffix`, on the character sequence of the string. -/
def hasSuf (s p : String) : Bool := p.data.isSuffixOf s.data

/-- Go `strings.TrimPrefix`: removes the prefix if present, else returns the
string unchanged. -/
def trimPre (s p : String) : String :=
  if hasPre s p then String.mk (s.data.drop p.data.length) else s

/-- Helper for `splitDot`: splits a character list at every dot, keeping empty
segments, with the current segment accumulated in reverse. -/
def splitDotAux : List Char → List Char → List String
  | [], acc => [String.mk acc.reverse]
  | c :: rest, acc =>
    if c = '.' then String.mk acc.reverse :: splitDotAux rest []
    else splitDotAux rest (c :: acc)

/-- Go `strings.Split(s, ".")`: the list of segments of `s` between dots
(always non-empty). -/
def splitDot (s : String) : List String := splitDotAux s.data []

/-- Go `ParseInternalType` (interface.go:70-79). -/
def ParseInternalType (internalType : String) : String :=
  if !(hasPre internalType "struct") then "Compound"
  else
    let structQualifiedName := trimPre internalType "struct "
    let structNameComponents := splitDot structQualifiedName
    structNameComponents.getLastD ""

/-- Go `GenerateType` (interface.go:82-87): `fmt.Sprintf("%s%d", typeName, *typeCounter)`
with the counter incremented. -/
def GenerateType (typeCounter : Nat) (internalType : String) : String × Nat :=
  (ParseInternalType internalType ++ Nat.repr typeCounter, typeCounter + 1)

/-- The member-building loop of `CompoundSingleValue` (interface.go:188-195): a
member keeps the component's name unless it is empty and a name counter is
present, in which case a fresh placeholder name is generated. -/
def buildMembers : List Value → Option Nat → List NamedValue × Option Nat
  | [], nameCounter => ([], nameCounter)
  | component :: rest, nameCounter =>
    let step : String × Option Nat :=
      if component.name = "" then
        match nameCounter with
        | some k => ((GenerateName k).1, some (GenerateName k).2)
        | none => (component.name, none)
      else (component.name, nameCounter)
    let tail := buildMembers rest step.2
    (⟨step.1, component⟩ :: tail.1, tail.2)

/-- `sizeOf` of the component list is smaller than `sizeOf` of the value. -/
theorem Value.sizeOf_components_lt (v : Value) : sizeOf v.components < sizeOf v := by
  cases v with
  | mk a b c d => simp [Value.components]

mutual

/-- Go `CompoundSingleValue` (interface.go:166-204).  Returns the replacement
value, the list of newly synthesized compound types, and the updated counters. -/
def CompoundSingleValue : Value → Nat → Option Nat → Value × List CompoundType × Nat × Option Nat
  | val@(.mk nm ty it comps), typeCounter, nameCounter =>
    if val.IsCompoundType then
      match compoundComponents comps typeCounter nameCounter with
      | (updatedComponents, newTypes, tc1, nc1) =>
        let g := GenerateType tc1 it
        let bm := buildMembers updatedComponents nc1
        let compound : CompoundType := ⟨g.1, bm.1⟩
        let resultType := if hasSuf ty "[]" then compound.typeName ++ "[]" else compound.typeName
        (Value.mk nm resultType "" [], newTypes ++ [compound], g.2, bm.2)
    else (val, [], typeCounter, nameCounter)

/-- The recursion over `val.Components` in `CompoundSingleValue`
(interface.go:177-184), including the `len(subTypes) > 0` guard before
appending. -/
def compoundComponents : List Value → Nat → Option Nat → List Value × List CompoundType × Nat × Option Nat
  | [], typeCounter, nameCounter => ([], [], typeCounter, nameCounter)
  | component :: rest, typeCounter, nameCounter =>
    match CompoundSingleValue component typeCounter nameCounter with
    | (subvalue, subTypes, tc1, nc1) =>
      match compoundComponents rest tc1 nc1 with
      | (vs, ts, tc2, nc2) =>
        (subvalue :: vs, (if subTypes.length > 0 then subTypes else []) ++ ts, tc2, nc2)

end

/-- The loop over one event's inputs in `ResolveCompounds` (interface.go:221-226).
The accumulator is `result.CompoundTypes`, appended to exactly as in the source. -/
def resolveEventInputs : List EventArgument → Nat → Nat → List CompoundType →
    List EventArgument × Nat × Nat × List CompoundType
  | [], typeCounter, nameCounter, acc => ([], typeCounter, nameCounter, acc)
  | arg :: rest, typeCounter, nameCounter, acc =>
    match CompoundSingleValue arg.value typeCounter (some nameCounter) with
    | (newInputValue, newTypes, tc1, nc1) =>
      match resolveEventInputs rest tc1 (nc1.getD nameCounter) (acc ++ newTypes) with
      | (args, tc2, nc2, acc2) => (⟨newInputValue, arg.indexed⟩ :: args, tc2, nc2, acc2)

/-- The loop over events in `ResolveCompounds` (interface.go:218-229); each event
is rebuilt with its `Type`, `Name` and `Anonymous` metadata unchanged. -/
def resolveEvents : List EventItem → Nat → Nat → List CompoundType →
    List EventItem × Nat × Nat × List CompoundType
  | [], typeCounter, nameCounter, acc => ([], typeCounter, nameCounter, acc)
  | ev :: rest, typeCounter, nameCounter, acc =>
    match resolveEventInputs ev.inputs typeCounter nameCounter acc with
    | (newInputs, tc1, nc1, acc1) =>
      match resolveEvents rest tc1 nc1 acc1 with
      | (items, tc2, nc2, acc2) => (⟨ev.type, ev.name, newInputs, ev.anonymous⟩ :: items, tc2, nc2, acc2)

/-- The loop over a list of plain values resolved with the shared name counter:
function inputs (interface.go:236-240) and error inputs (interface.go:254-258). -/
def resolveValues : List Value → Nat → Nat → List CompoundType →
    List Value × Nat × Nat × List CompoundType
  | [], typeCounter, nameCounter, acc => ([], typeCounter, nameCounter, acc)
  | v :: rest, typeCounter, nameCounter, acc =>
    match CompoundSingleValue v typeCounter (some nameCounter) with
    | (newValue, newTypes, tc1, nc1) =>
      match resolveValues rest tc1 (nc1.getD nameCounter) (acc ++ newTypes) with
      | (vs, tc2, nc2, acc2) => (newValue :: vs, tc2, nc2, acc2)

/-- The loop over function outputs (interface.go:242-246): the name counter
pointer is nil, so the shared name counter is untouched. -/
def resolveOutputs : List Value → Nat → List CompoundType →
    List Value × Nat × List CompoundType
  | [], typeCounter, acc => ([], typeCounter, acc)
  | v :: rest, typeCounter, acc =>
    match CompoundSingleValue v typeCounter none with
    | (newValue, newTypes, tc1, _) =>
      match resolveOutputs rest tc1 (acc ++ newTypes) with
      | (vs, tc2, acc2) => (newValue :: vs, tc2, acc2)

/-- The loop over functions in `ResolveCompounds` (interface.go:231-249): inputs
are resolved before outputs; `Type`, `Name`, `StateMutability` are preserved. -/
def resolveFunctions : List FunctionItem → Nat → Nat → List CompoundType →
    List FunctionItem × Nat × Nat × List CompoundType
  | [], typeCounter, nameCounter, acc => ([], typeCounter, nameCounter, acc)
  | fn :: rest, typeCounter, nameCounter, acc =>
    match resolveValues fn.inputs typeCounter nameCounter acc with
    | (newInputs, tc1, nc1, acc1) =>
      match resolveOutputs fn.outputs tc1 acc1 with
      | (newOutputs, tc2, acc2) =>
        match resolveFunctions rest tc2 nc1 acc2 with
        | (items, tc3, nc3, acc3) =>
          (⟨fn.type, fn.name, newInputs, newOutputs, fn.stateMutability⟩ :: items, tc3, nc3, acc3)

/-- The loop over errors in `ResolveCompounds` (interface.go:251-261). -/
def resolveErrors : List ErrorItem → Nat → Nat → List CompoundType →
    List ErrorItem × Nat × Nat × List CompoundType
  | [], typeCounter, nameCounter, acc => ([], typeCounter, nameCounter, acc)
  | er :: rest, typeCounter, nameCounter, acc =>
    match resolveValues er.inputs typeCounter nameCounter acc with
    | (newInputs, tc1, nc1, acc1) =>
      match resolveErrors rest tc1 nc1 acc1 with
      | (items, tc2, nc2, acc2) => (⟨er.type, er.name, newInputs⟩ :: items, tc2, nc2, acc2)

/-- Go `ResolveCompounds` (interface.go:208-264): both counters start at zero,
events are processed first, then functions (inputs before outputs), then
errors; `result.OriginalABI` is the input ABI unchanged. -/
def ResolveCompounds (abi : DecodedABI) : DecodedABIWithCompundTypes :=
  match resolveEvents abi.events 0 0 [] with
  | (evs, tc1, nc1, acc1) =>
    match resolveFunctions abi.functions tc1 nc1 acc1 with
    | (fns, tc2, nc2, acc2) =>
      match resolveErrors abi.errors tc2 nc2 acc2 with
      | (errs, _, _, acc3) => ⟨abi, acc3, ⟨evs, fns, errs⟩⟩

/-! ### Specification-side measures and observers -/

/-- The placeholder name produced for counter value `k` (the string part of
`GenerateName`). -/
def attr (k : Nat) : String := "Attribute" ++ Nat.repr k

/-- The flattening post-condition: every event input, function input, function
output and error input of the ABI fails `IsCompoundType`. -/
def flatABI (abi : DecodedABI) : Bool :=
  abi.events.all (fun e => e.inputs.all (fun a => !a.value.IsCompoundType)) &&
  abi.functions.all (fun f =>
    f.inputs.all (fun v => !v.IsCompoundType) && f.outputs.all (fun v => !v.IsCompoundType)) &&
  abi.errors.all (fun e => e.inputs.all (fun v => !v.IsCompoundType))

mutual

/-- Number of parameter nodes with non-empty components in the tree of `v`
(the node itself included when compound). -/
def countCompound : Value → Nat
  | .mk _ _ _ comps => (if comps.length > 0 then 1 else 0) + countCompoundList comps

/-- Sum of `countCompound` over a list of values. -/
def countCompoundList : List Value → Nat
  | [] => 0
  | c :: rest => countCompound c + countCompoundList rest

end

/-- Total number of compound parameter nodes across all event inputs, function
inputs, function outputs and error inputs of an ABI. -/
def abiCompoundCount (abi : DecodedABI) : Nat :=
  (abi.events.map (fun e => countCompoundList (e.inputs.map (fun a => a.value)))).sum +
  (abi.functions.map (fun f => countCompoundList f.inputs + countCompoundList f.outputs)).sum +
  (abi.errors.map (fun e => countCompoundList e.inputs)).sum

/-- Number of values in the list whose name is the empty string. -/
def countEmpty : List Value → Nat
  | [] => 0
  | c :: rest => (if c.name = "" then 1 else 0) + countEmpty rest

mutual

/-- Number of placeholder member names generated while resolving `v` with
placeholder naming enabled. -/
def unnamedCount : Value → Nat
  | .mk _ _ _ comps =>
    if comps.length > 0 then unnamedCountList comps + countEmpty comps else 0

/-- Sum of `unnamedCount` over a list of values. -/
def unnamedCountList : List Value → Nat
  | [] => 0
  | c :: rest => unnamedCount c + unnamedCountList rest

end

/-- Total number of placeholder member names generated over one full
`ResolveCompounds` run (function outputs generate none). -/
def abiUnnamedCount (abi : DecodedABI) : Nat :=
  (abi.events.map (fun e => unnamedCountList (e.inputs.map (fun a => a.value)))).sum +
  (abi.functions.map (fun f => unnamedCountList f.inputs)).sum +
  (abi.errors.map (fun e => unnamedCountList e.inputs)).sum

/-- Placeholder names generated by the member-building loop for `comps` when
the name counter starts at `n`, in generation order. -/
def genNamesMembers : List Value → Nat → List String
  | [], _ => []
  | c :: rest, n =>
    if c.name = "" then attr n :: genNamesMembers rest (n + 1) else genNamesMembers rest n

mutual

/-- Placeholder names generated while resolving `v` with naming enabled and
name counter `n`: descendants first, then the members of `v` itself. -/
def genNamesValue : Value → Nat → List String
  | .mk _ _ _ comps, n =>
    if comps.length > 0 then
      genNamesList comps n ++ genNamesMembers comps (n + unnamedCountList comps)
    else []

/-- Placeholder names generated while resolving a list of values in order. -/
def genNamesList : List Value → Nat → List String
  | [], _ => []
  | c :: rest, n => genNamesValue c n ++ genNamesList rest (n + unnamedCount c)

end

/-- Placeholder names generated while resolving the events of an ABI in order. -/
def genNamesEvents : List EventItem → Nat → List String
  | [], _ => []
  | e :: rest, n =>
    genNamesList (e.inputs.map (fun a => a.value)) n ++
    genNamesEvents rest (n + unnamedCountList (e.inputs.map (fun a => a.value)))

/-- Placeholder names generated while resolving the functions of an ABI in
order (only inputs generate names). -/
def genNamesFunctions : List FunctionItem → Nat → List String
  | [], _ => []
  | f :: rest, n => genNamesList f.inputs n ++ genNamesFunctions rest (n + unnamedCountList f.inputs)

/-- Placeholder names generated while resolving the errors of an ABI in order. -/
def genNamesErrors : List ErrorItem → Nat → List String
  | [], _ => []
  | e :: rest, n => genNamesList e.inputs n ++ genNamesErrors rest (n + unnamedCountList e.inputs)

/-- All placeholder member names generated over one `ResolveCompounds` run, in
generation order of the single shared name counter. -/
def genNamesRun (abi : DecodedABI) : List String :=
  let n1 := (abi.events.map (fun e => unnamedCountList (e.inputs.map (fun a => a.value)))).sum
  let n2 := n1 + (abi.functions.map (fun f => unnamedCountList f.inputs)).sum
  genNamesEvents abi.events 0 ++ genNamesFunctions abi.functions n1 ++ genNamesErrors abi.errors n2

/-- The member names produced by `buildMembers` with naming enabled: original
names kept, empty names replaced by consecutive placeholders. -/
def withPlaceholders : List Value → Nat → List String
  | [], _ => []
  | c :: rest, n =>
    if c.name = "" then attr n :: withPlaceholders rest (n + 1)
    else c.name :: withPlaceholders rest n

/-! ### Concrete fixtures used by scenario conjuncts, witnesses and counterexamples -/

/-- Scenario A value: `tuple{uint256 rofl; address omg}` named `lol`. -/
def valScenarioA : Value :=
  Value.mk "lol" "tuple()" ""
    [Value.mk "rofl" "uint256" "" [], Value.mk "omg" "address" "" []]

/-- Scenario B value: `tuple{uint256 rofl; tuple{address wtf; uint256 bbq} omg}`. -/
def valScenarioB : Value :=
  Value.mk "lol" "tuple()" ""
    [Value.mk "rofl" "uint256" "" [],
     Value.mk "omg" "tuple()" ""
       [Value.mk "wtf" "address" "" [], Value.mk "bbq" "uint256" "" []]]

/-- A compound whose single child is an array-of-tuples compound. -/
def valNestedArray : Value :=
  Value.mk "outer" "tuple" ""
    [Value.mk "in" "tuple[]" "" [Value.mk "a" "uint256" "" []]]

/-- An ABI with a single function whose only output is `v`. -/
def outputOnlyABI (v : Value) : DecodedABI :=
  ⟨[], [⟨"function", "f", [], [v], "view"⟩], []⟩

/-- An ABI with a single function whose only input is `v`. -/
def inputOnlyABI (v : Value) : DecodedABI :=
  ⟨[], [⟨"function", "f", [v], [], "view"⟩], []⟩

/-- An ABI with a single non-anonymous event whose only (non-indexed) input is `v`. -/
def eventOnlyABI (v : Value) : DecodedABI :=
  ⟨[⟨"event", "E", [⟨v, false⟩], false⟩], [], []⟩

/-- An ABI with a single error whose only input is `v`. -/
def errorOnlyABI (v : Value) : DecodedABI :=
  ⟨[], [], [⟨"error", "E", [v]⟩]⟩

example :
    (CompoundSingleValue valScenarioA 0 (some 0)).2.1 =
    [⟨"Compound0", [⟨"rofl", Value.mk "rofl" "uint256" "" []⟩,
                    ⟨"omg", Value.mk "omg" "address" "" []⟩]⟩] := by
  rfl

/-! ### Injectivity of the decimal rendering used by `GenerateName`/`GenerateType` -/

/-- Decimal character list of a natural number, most significant digit first. -/
def charsOf (n : Nat) : List Char :=
  if n < 10 then [Nat.digitChar n]
  else charsOf (n / 10) ++ [Nat.digitChar (n % 10)]
termination_by n
decreasing_by
  exact Nat.div_lt_self (by omega) (by omega)

theorem charsOf_lt (n : Nat) (h : n < 10) : charsOf n = [Nat.digitChar n] := by
  unfold charsOf
  simp [h]

theorem charsOf_ge (n : Nat) (h : ¬ n < 10) :
    charsOf n = charsOf (n / 10) ++ [Nat.digitChar (n % 10)] := by
  conv_lhs => unfold charsOf
  simp [h]

theorem charsOf_ne_nil (n : Nat) : charsOf n ≠ [] := by
  by_cases h : n < 10
  · simp [charsOf_lt n h]
  · simp [charsOf_ge n h]

theorem toDigitsCore_eq_charsOf :
    ∀ (fuel n : Nat) (acc : List Char), n < 10 ^ (fuel + 1) →
      Nat.toDigitsCore 10 (fuel + 1) n acc = charsOf n ++ acc := by
  intro fuel
  induction fuel with
  | zero =>
    intro n acc h
    have hn : n < 10 := by simpa using h
    have hd : n / 10 = 0 := Nat.div_eq_of_lt hn
    simp [Nat.toDigitsCore, hd, charsOf_lt n hn, Nat.mod_eq_of_lt hn]
  | succ fuel ih =>
    intro n acc h
    by_cases hz : n / 10 = 0
    · have hn : n < 10 := by omega
      simp [Nat.toDigitsCore, hz, charsOf_lt n hn, Nat.mod_eq_of_lt hn]
    · have hn : ¬ n < 10 := by
        intro hc
        exact hz (Nat.div_eq_of_lt hc)
      have hlt : n / 10 < 10 ^ (fuel + 1) := by
        have hmul : n < 10 ^ (fuel + 1) * 10 := by
          calc n < 10 ^ (fuel + 1 + 1) := h
          _ = 10 ^ (fuel + 1) * 10 := by ring
        exact Nat.div_lt_iff_lt_mul (by omega) |>.mpr hmul
      have step : Nat.toDigitsCore 10 (fuel + 1 + 1) n acc =
          Nat.toDigitsCore 10 (fuel + 1) (n / 10) (Nat.digitChar (n % 10) :: acc) := by
        simp [Nat.toDigitsCore, hz]
      rw [step, ih (n / 10) (Nat.digitChar (n % 10) :: acc) hlt, charsOf_ge n hn]
      simp

theorem repr_eq_charsOf (n : Nat) : Nat.repr n = (charsOf n).asString := by
  have h : n < 10 ^ (n + 1) := by
    calc n < 10 ^ n := Nat.lt_pow_self (by omega) n
    _ ≤ 10 ^ (n + 1) := Nat.pow_le_pow_right (by omega) (Nat.le_succ n)
  show (Nat.toDigits 10 n).asString = (charsOf n).asString
  rw [Nat.toDigits, toDigitsCore_eq_charsOf n n [] h]
  simp

theorem digitChar_inj_lt (a b : Nat) (ha : a < 10) (hb : b < 10)
    (h : Nat.digitChar a = Nat.digitChar b) : a = b := by
  have key : ∀ x y : Fin 10, Nat.digitChar x.val = Nat.digitChar y.val → x = y := by decide
  have := key ⟨a, ha⟩ ⟨b, hb⟩ h
  simpa using congrArg Fin.val this

theorem charsOf_injective : ∀ a b : Nat, charsOf a = charsOf b → a = b := by
  intro a
  induction a using Nat.strong_induction_on with
  | _ a ih =>
    intro b h
    by_cases ha : a < 10
    · by_cases hb : b < 10
      · rw [charsOf_lt a ha, charsOf_lt b hb] at h
        exact digitChar_inj_lt a b ha hb (by simpa using h)
      · exfalso
        rw [charsOf_lt a ha, charsOf_ge b hb] at h
        have := congrArg List.length h
        have hne := charsOf_ne_nil (b / 10)
        simp at this
        cases hx : charsOf (b / 10) with
        | nil => exact hne hx
        | cons y ys => rw [hx] at this; simp at this
    · by_cases hb : b < 10
      · exfalso
        rw [charsOf_ge a ha, charsOf_lt b hb] at h
        have := congrArg List.length h
        have hne := charsOf_ne_nil (a / 10)
        simp at this
        cases hx : charsOf (a / 10) with
        | nil => exact hne hx
        | cons y ys => rw [hx] at this; simp at this
      · rw [charsOf_ge a ha, charsOf_ge b hb] at h
        have hrev := congrArg List.reverse h
        simp at hrev
        have hmod : a % 10 = b % 10 :=
          digitChar_inj_lt _ _ (Nat.mod_lt a (by omega)) (Nat.mod_lt b (by omega)) hrev.1
        have hdivchars : charsOf (a / 10) = charsOf (b / 10) := by
          have := hrev.2
          have hrr := congrArg List.reverse this
          simpa using hrr
        have hdiv : a / 10 = b / 10 :=
          ih (a / 10) (Nat.div_lt_self (by omega) (by omega)) (b / 10) hdivchars
        omega

theorem reprInjective : ∀ a b : Nat, Nat.repr a = Nat.repr b → a = b := by
  intro a b h
  rw [repr_eq_charsOf, repr_eq_charsOf] at h
  apply charsOf_injective
  simpa [List.asString] using congrArg String.data h

theorem string_append_right_inj (p s t : String) (h : p ++ s = p ++ t) : s = t := by
  apply String.ext
  have := congrArg String.data h
  simp only [String.data_append] at this
  exact List.append_cancel_left this

/-- Distinct counter values always give distinct names when the prefixes agree. -/
theorem prefixed_repr_ne (p : String) (i j : Nat) (hij : i ≠ j) :
    p ++ Nat.repr i ≠ p ++ Nat.repr j := by
  intro h
  exact hij (reprInjective i j (string_append_right_inj p _ _ h))

/-- Placeholder names for distinct counter values are distinct. -/
theorem attr_inj (i j : Nat) (hij : i ≠ j) : attr i ≠ attr j :=
  prefixed_repr_ne "Attribute" i j hij

/-! ### Basic equations for `CompoundSingleValue` -/

theorem ifLenPos (l : List CompoundType) : (if l.length > 0 then l else []) = l := by
  cases l <;> simp

theorem not_compound_components (v : Value) (h : v.IsCompoundType = false) :
    v.components = [] := by
  cases v with
  | mk a b c d =>
    simp [Value.IsCompoundType, Value.components] at h ⊢
    exact h

theorem CSV_base (v : Value) (tc : Nat) (nc : Option Nat) (h : v.IsCompoundType = false) :
    CompoundSingleValue v tc nc = (v, [], tc, nc) := by
  cases v with
  | mk a b c d => simp [CompoundSingleValue, h]

theorem CSV_compound (nm ty it : String) (comps : List Value) (tc : Nat) (nc : Option Nat)
    (h : 0 < comps.length) :
    CompoundSingleValue (Value.mk nm ty it comps) tc nc =
      (Value.mk nm
        (if hasSuf ty "[]" then
          (GenerateType (compoundComponents comps tc nc).2.2.1 it).1 ++ "[]"
        else (GenerateType (compoundComponents comps tc nc).2.2.1 it).1) "" [],
       (compoundComponents comps tc nc).2.1 ++
         [⟨(GenerateType (compoundComponents comps tc nc).2.2.1 it).1,
           (buildMembers (compoundComponents comps tc nc).1 (compoundComponents comps tc nc).2.2.2).1⟩],
       (GenerateType (compoundComponents comps tc nc).2.2.1 it).2,
       (buildMembers (compoundComponents comps tc nc).1 (compoundComponents comps tc nc).2.2.2).2) := by
  have hc : (Value.mk nm ty it comps).IsCompoundType = true := by
    simp [Value.IsCompoundType, Value.components]
    omega
  simp only [CompoundSingleValue, hc, if_true, Value.internalType, Value.type, Value.name]

theorem compoundComponents_nil (tc : Nat) (nc : Option Nat) :
    compoundComponents [] tc nc = ([], [], tc, nc) := rfl

theorem compoundComponents_cons (c : Value) (rest : List Value) (tc : Nat) (nc : Option Nat) :
    compoundComponents (c :: rest) tc nc =
      ((CompoundSingleValue c tc nc).1 ::
        (compoundComponents rest (CompoundSingleValue c tc nc).2.2.1
          (CompoundSingleValue c tc nc).2.2.2).1,
       (if (CompoundSingleValue c tc nc).2.1.length > 0 then (CompoundSingleValue c tc nc).2.1
        else []) ++
         (compoundComponents rest (CompoundSingleValue c tc nc).2.2.1
           (CompoundSingleValue c tc nc).2.2.2).2.1,
       (compoundComponents rest (CompoundSingleValue c tc nc).2.2.1
         (CompoundSingleValue c tc nc).2.2.2).2.2) := rfl

/-! ### Flattening: the resolver never returns a compound value -/

theorem CSV_not_compound (v : Value) (tc : Nat) (nc : Option Nat) :
    (CompoundSingleValue v tc nc).1.IsCompoundType = false := by
  cases v with
  | mk nm ty it comps =>
    by_cases h : 0 < comps.length
    · rw [CSV_compound nm ty it comps tc nc h]
      simp [Value.IsCompoundType, Value.components]
    · have hcomps : comps = [] := by
        cases comps with
        | nil => rfl
        | cons a l => exact absurd (by simp) h
      have hb : (Value.mk nm ty it comps).IsCompoundType = false := by
        simp [Value.IsCompoundType, Value.components, hcomps]
      rw [CSV_base _ tc nc hb]
      exact hb

theorem resolveEventInputs_not_compound (args : List EventArgument) (tc nc : Nat)
    (acc : List CompoundType) :
    ∀ a ∈ (resolveEventInputs args tc nc acc).1, a.value.IsCompoundType = false := by
  induction args generalizing tc nc acc with
  | nil => intro a ha; simp [resolveEventInputs] at ha
  | cons arg rest ih =>
    intro a ha
    simp only [resolveEventInputs] at ha
    rw [List.mem_cons] at ha
    rcases ha with ha | ha
    · subst ha
      exact CSV_not_compound arg.value tc (some nc)
    · exact ih _ _ _ a ha

theorem resolveValues_not_compound (vs : List Value) (tc nc : Nat) (acc : List CompoundType) :
    ∀ v ∈ (resolveValues vs tc nc acc).1, v.IsCompoundType = false := by
  induction vs generalizing tc nc acc with
  | nil => intro v hv; simp [resolveValues] at hv
  | cons w rest ih =>
    intro v hv
    simp only [resolveValues] at hv
    rw [List.mem_cons] at hv
    rcases hv with hv | hv
    · subst hv
      exact CSV_not_compound w tc (some nc)
    · exact ih _ _ _ v hv

theorem resolveOutputs_not_compound (vs : List Value) (tc : Nat) (acc : List CompoundType) :
    ∀ v ∈ (resolveOutputs vs tc acc).1, v.IsCompoundType = false := by
  induction vs generalizing tc acc with
  | nil => intro v hv; simp [resolveOutputs] at hv
  | cons w rest ih =>
    intro v hv
    simp only [resolveOutputs] at hv
    rw [List.mem_cons] at hv
    rcases hv with hv | hv
    · subst hv
      exact CSV_not_compound w tc none
    · exact ih _ _ v hv

theorem resolveEvents_not_compound (items : List EventItem) (tc nc : Nat)
    (acc : List CompoundType) :
    ∀ e ∈ (resolveEvents items tc nc acc).1, ∀ a ∈ e.inputs, a.value.IsCompoundType = false := by
  induction items generalizing tc nc acc with
  | nil => intro e he; simp [resolveEvents] at he
  | cons ev rest ih =>
    intro e he
    simp only [resolveEvents] at he
    rw [List.mem_cons] at he
    rcases he with he | he
    · subst he
      intro a ha
      exact resolveEventInputs_not_compound ev.inputs tc nc acc a ha
    · exact ih _ _ _ e he

theorem resolveFunctions_not_compound (items : List FunctionItem) (tc nc : Nat)
    (acc : List CompoundType) :
    ∀ f ∈ (resolveFunctions items tc nc acc).1,
      (∀ v ∈ f.inputs, v.IsCompoundType = false) ∧
      (∀ v ∈ f.outputs, v.IsCompoundType = false) := by
  induction items generalizing tc nc acc with
  | nil => intro f hf; simp [resolveFunctions] at hf
  | cons fn rest ih =>
    intro f hf
    simp only [resolveFunctions] at hf
    rw [List.mem_cons] at hf
    rcases hf with hf | hf
    · subst hf
      constructor
      · intro v hv
        exact resolveValues_not_compound fn.inputs tc nc acc v hv
      · intro v hv
        exact resolveOutputs_not_compound fn.outputs _ _ v hv
    · exact ih _ _ _ f hf

theorem resolveErrors_not_compound (items : List ErrorItem) (tc nc : Nat)
    (acc : List CompoundType) :
    ∀ e ∈ (resolveErrors items tc nc acc).1, ∀ v ∈ e.inputs, v.IsCompoundType = false := by
  induction items generalizing tc nc acc with
  | nil => intro e he; simp [resolveErrors] at he
  | cons er rest ih =>
    intro e he
    simp only [resolveErrors] at he
    rw [List.mem_cons] at he
    rcases he with he | he
    · subst he
      intro v hv
      exact resolveValues_not_compound er.inputs tc nc acc v hv
    · exact ih _ _ _ e he

theorem ResolveCompounds_flat (abi : DecodedABI) :
    flatABI (ResolveCompounds abi).enrichedABI = true := by
  simp only [ResolveCompounds, flatABI, Bool.and_eq_true, List.all_eq_true]
  refine ⟨⟨?_, ?_⟩, ?_⟩
  · intro e he a ha
    simp [resolveEvents_not_compound abi.events 0 0 [] e he a ha]
  · intro f hf
    have h2 := resolveFunctions_not_compound abi.functions _ _ _ f hf
    exact ⟨fun v hv => by simp [h2.1 v hv], fun v hv => by simp [h2.2 v hv]⟩
  · intro e he v hv
    simp [resolveErrors_not_compound abi.errors _ _ _ e he v hv]

/-! ### Resolving an already-flat ABI is the identity -/

theorem resolveEventInputs_id (args : List EventArgument) (tc nc : Nat) (acc : List CompoundType)
    (h : ∀ a ∈ args, a.value.IsCompoundType = false) :
    resolveEventInputs args tc nc acc = (args, tc, nc, acc) := by
  induction args generalizing tc nc acc with
  | nil => rfl
  | cons arg rest ih =>
    have h1 : arg.value.IsCompoundType = false := h arg (by simp)
    have hrest : ∀ a ∈ rest, a.value.IsCompoundType = false := fun a ha => h a (by simp [ha])
    simp only [resolveEventInputs, CSV_base arg.value tc (some nc) h1, Option.getD_some,
      List.append_nil, ih tc nc acc hrest]

theorem resolveValues_id (vs : List Value) (tc nc : Nat) (acc : List CompoundType)
    (h : ∀ v ∈ vs, v.IsCompoundType = false) :
    resolveValues vs tc nc acc = (vs, tc, nc, acc) := by
  induction vs generalizing tc nc acc with
  | nil => rfl
  | cons w rest ih =>
    have h1 : w.IsCompoundType = false := h w (by simp)
    have hrest : ∀ v ∈ rest, v.IsCompoundType = false := fun v hv => h v (by simp [hv])
    simp only [resolveValues, CSV_base w tc (some nc) h1, Option.getD_some,
      List.append_nil, ih tc nc acc hrest]

theorem resolveOutputs_id (vs : List Value) (tc : Nat) (acc : List CompoundType)
    (h : ∀ v ∈ vs, v.IsCompoundType = false) :
    resolveOutputs vs tc acc = (vs, tc, acc) := by
  induction vs generalizing tc acc with
  | nil => rfl
  | cons w rest ih =>
    have h1 : w.IsCompoundType = false := h w (by simp)
    have hrest : ∀ v ∈ rest, v.IsCompoundType = false := fun v hv => h v (by simp [hv])
    simp only [resolveOutputs, CSV_base w tc none h1, List.append_nil, ih tc acc hrest]

theorem resolveEvents_id (items : List EventItem) (tc nc : Nat) (acc : List CompoundType)
    (h : ∀ e ∈ items, ∀ a ∈ e.inputs, a.value.IsCompoundType = false) :
    resolveEvents items tc nc acc = (items, tc, nc, acc) := by
  induction items generalizing tc nc acc with
  | nil => rfl
  | cons ev rest ih =>
    have h1 := h ev (by simp)
    have hrest : ∀ e ∈ rest, ∀ a ∈ e.inputs, a.value.IsCompoundType = false :=
      fun e he => h e (by simp [he])
    simp only [resolveEvents, resolveEventInputs_id ev.inputs tc nc acc h1, ih tc nc acc hrest]

theorem resolveFunctions_id (items : List FunctionItem) (tc nc : Nat) (acc : List CompoundType)
    (h : ∀ f ∈ items, (∀ v ∈ f.inputs, v.IsCompoundType = false) ∧
      (∀ v ∈ f.outputs, v.IsCompoundType = false)) :
    resolveFunctions items tc nc acc = (items, tc, nc, acc) := by
  induction items generalizing tc nc acc with
  | nil => rfl
  | cons fn rest ih =>
    have h1 := h fn (by simp)
    have hrest : ∀ f ∈ rest, (∀ v ∈ f.inputs, v.IsCompoundType = false) ∧
        (∀ v ∈ f.outputs, v.IsCompoundType = false) :=
      fun f hf => h f (by simp [hf])
    simp only [resolveFunctions, resolveValues_id fn.inputs tc nc acc h1.1,
      resolveOutputs_id fn.outputs tc acc h1.2, ih tc nc acc hrest]

theorem resolveErrors_id (items : List ErrorItem) (tc nc : Nat) (acc : List CompoundType)
    (h : ∀ e ∈ items, ∀ v ∈ e.inputs, v.IsCompoundType = false) :
    resolveErrors items tc nc acc = (items, tc, nc, acc) := by
  induction items generalizing tc nc acc with
  | nil => rfl
  | cons er rest ih =>
    have h1 := h er (by simp)
    have hrest : ∀ e ∈ rest, ∀ v ∈ e.inputs, v.IsCompoundType = false :=
      fun e he => h e (by simp [he])
    simp only [resolveErrors, resolveValues_id er.inputs tc nc acc h1, ih tc nc acc hrest]

theorem ResolveCompounds_flat_id (abi : DecodedABI) (h : flatABI abi = true) :
    ResolveCompounds abi = ⟨abi, [], abi⟩ := by
  simp only [flatABI, Bool.and_eq_true, List.all_eq_true, Bool.not_eq_true'] at h
  obtain ⟨⟨h1, h2⟩, h3⟩ := h
  simp only [ResolveCompounds, resolveEvents_id abi.events 0 0 [] h1,
    resolveFunctions_id abi.functions 0 0 [] h2, resolveErrors_id abi.errors 0 0 [] h3]

/-- C1.  Flattening is idempotent and fully flattens: no parameter of the
enriched ABI is compound, and resolving the enriched ABI again synthesizes no
types and returns the enriched ABI unchanged as its own enriched ABI. -/
theorem C1_flattening_idempotent (abi : DecodedABI) :
    flatABI (ResolveCompounds abi).enrichedABI = true ∧
    (ResolveCompounds (ResolveCompounds abi).enrichedABI).compoundTypes = [] ∧
    (ResolveCompounds (ResolveCompounds abi).enrichedABI).enrichedABI =
      (ResolveCompounds abi).enrichedABI := by
  have hflat := ResolveCompounds_flat abi
  have hid := ResolveCompounds_flat_id _ hflat
  exact ⟨hflat, by rw [hid], by rw [hid]⟩

/-! ### C7: the zero-children edge case -/

/-- A parameter with an empty component list (used by C7). -/
def valZeroChildren : Value := Value.mk "x" "tuple" "struct X" []

/-- C7 counterexample.  Resolving a parameter with zero children yields an
empty list of synthesized types, not exactly one type with an empty member
list as the claim states. -/
theorem C7_counterexample :
    valZeroChildren.components = [] ∧
    (CompoundSingleValue valZeroChildren 0 (some 0)).2.1.length = 0 ∧
    ¬ (CompoundSingleValue valZeroChildren 0 (some 0)).2.1.length = 1 := by
  refine ⟨rfl, rfl, ?_⟩
  decide

/-- C7 (amended).  A parameter with zero children is not compound
(`IsCompoundType` is true exactly when the component list is non-empty), so
resolving it takes the unchanged base-case path: it is returned unchanged and
no type at all is synthesized. -/
theorem C7_zero_children_base_case (v : Value) (tc : Nat) (nc : Option Nat)
    (h : v.components = []) :
    v.IsCompoundType = false ∧ CompoundSingleValue v tc nc = (v, [], tc, nc) := by
  have hb : v.IsCompoundType = false := by simp [Value.IsCompoundType, h]
  exact ⟨hb, CSV_base v tc nc hb⟩

/-- C7 witness: the amended statement evaluated on a concrete parameter. -/
theorem C7_zero_children_base_case_witness :
    valZeroChildren.components = [] ∧
    (valZeroChildren.IsCompoundType = false ∧
     CompoundSingleValue valZeroChildren 0 (some 0) = (valZeroChildren, [], 0, some 0)) :=
  ⟨rfl, C7_zero_children_base_case valZeroChildren 0 (some 0) rfl⟩

/-! ### C5: array-suffix preservation -/

theorem getLastD_append_singleton {α : Type} (l : List α) (x d : α) :
    (l ++ [x]).getLastD d = x := by
  induction l with
  | nil => rfl
  | cons a rest ih =>
    cases rest with
    | nil => rfl
    | cons b more => simpa using ih

theorem string_ne_append_brackets (s : String) : s ≠ s ++ "[]" := by
  intro h
  have := congrArg String.length h
  rw [String.length_append] at this
  have h2 : ("[]" : String).length = 2 := rfl
  omega

/-- C5.  For a compound parameter the replacement keeps the original name; its
type is the synthesized type name with `[]` appended exactly when the original
type string ends in `[]`; and the synthesized types themselves are independent
of the parameter's type string, so the compound type never records array-ness. -/
theorem C5_array_suffix (v : Value) (tc : Nat) (nc : Option Nat)
    (h : v.IsCompoundType = true) :
    (CompoundSingleValue v tc nc).1.name = v.name ∧
    ((CompoundSingleValue v tc nc).1.type =
        ((CompoundSingleValue v tc nc).2.1.getLastD ⟨"", []⟩).typeName ++ "[]" ↔
      hasSuf v.type "[]" = true) ∧
    (hasSuf v.type "[]" = false →
      (CompoundSingleValue v tc nc).1.type =
        ((CompoundSingleValue v tc nc).2.1.getLastD ⟨"", []⟩).typeName) ∧
    (∀ ty2 : String,
      (CompoundSingleValue (Value.mk v.name ty2 v.internalType v.components) tc nc).2.1 =
        (CompoundSingleValue v tc nc).2.1) := by
  cases v with
  | mk nm ty it comps =>
    have hlen : 0 < comps.length := by
      simpa [Value.IsCompoundType, Value.components] using h
    rw [CSV_compound nm ty it comps tc nc hlen]
    simp only [Value.name, Value.type, Value.internalType, Value.components,
      getLastD_append_singleton]
    refine ⟨by trivial, ?_, ?_, ?_⟩
    · constructor
      · intro heq
        by_cases hs : hasSuf ty "[]" = true
        · exact hs
        · exfalso
          rw [Bool.not_eq_true] at hs
          rw [hs] at heq
          simp only [Bool.false_eq_true, if_false] at heq
          exact string_ne_append_brackets _ heq
      · intro hs
        simp [hs]
    · intro hs
      simp [hs]
    · intro ty2
      rw [CSV_compound nm ty2 it comps tc nc hlen]

/-- An array-of-tuples parameter used as the C5 witness. -/
def valArrayTuple : Value := Value.mk "xs" "tuple[]" "" [Value.mk "a" "uint256" "" []]

/-- C5 witness: the theorem applied to a concrete `tuple[]` parameter. -/
theorem C5_array_suffix_witness :
    valArrayTuple.IsCompoundType = true ∧
    ((CompoundSingleValue valArrayTuple 0 (some 0)).1.name = valArrayTuple.name ∧
    ((CompoundSingleValue valArrayTuple 0 (some 0)).1.type =
        ((CompoundSingleValue valArrayTuple 0 (some 0)).2.1.getLastD ⟨"", []⟩).typeName ++ "[]" ↔
      hasSuf valArrayTuple.type "[]" = true) ∧
    (hasSuf valArrayTuple.type "[]" = false →
      (CompoundSingleValue valArrayTuple 0 (some 0)).1.type =
        ((CompoundSingleValue valArrayTuple 0 (some 0)).2.1.getLastD ⟨"", []⟩).typeName) ∧
    (∀ ty2 : String,
      (CompoundSingleValue
        (Value.mk valArrayTuple.name ty2 valArrayTuple.internalType valArrayTuple.components)
        0 (some 0)).2.1 =
        (CompoundSingleValue valArrayTuple 0 (some 0)).2.1)) :=
  ⟨rfl, C5_array_suffix valArrayTuple 0 (some 0) rfl⟩

/-! ### Unfolding equations for the resolver loops -/

theorem resolveEventInputs_nil (tc nc : Nat) (acc : List CompoundType) :
    resolveEventInputs [] tc nc acc = ([], tc, nc, acc) := rfl

theorem resolveEventInputs_cons (arg : EventArgument) (rest : List EventArgument)
    (tc nc : Nat) (acc : List CompoundType) :
    resolveEventInputs (arg :: rest) tc nc acc =
      ((⟨(CompoundSingleValue arg.value tc (some nc)).1, arg.indexed⟩ : EventArgument) ::
        (resolveEventInputs rest (CompoundSingleValue arg.value tc (some nc)).2.2.1
          ((CompoundSingleValue arg.value tc (some nc)).2.2.2.getD nc)
          (acc ++ (CompoundSingleValue arg.value tc (some nc)).2.1)).1,
       (resolveEventInputs rest (CompoundSingleValue arg.value tc (some nc)).2.2.1
          ((CompoundSingleValue arg.value tc (some nc)).2.2.2.getD nc)
          (acc ++ (CompoundSingleValue arg.value tc (some nc)).2.1)).2) := rfl

theorem resolveEvents_nil (tc nc : Nat) (acc : List CompoundType) :
    resolveEvents [] tc nc acc = ([], tc, nc, acc) := rfl

theorem resolveEvents_cons (ev : EventItem) (rest : List EventItem)
    (tc nc : Nat) (acc : List CompoundType) :
    resolveEvents (ev :: rest) tc nc acc =
      ((⟨ev.type, ev.name, (resolveEventInputs ev.inputs tc nc acc).1, ev.anonymous⟩ : EventItem) ::
        (resolveEvents rest (resolveEventInputs ev.inputs tc nc acc).2.1
          (resolveEventInputs ev.inputs tc nc acc).2.2.1
          (resolveEventInputs ev.inputs tc nc acc).2.2.2).1,
       (resolveEvents rest (resolveEventInputs ev.inputs tc nc acc).2.1
          (resolveEventInputs ev.inputs tc nc acc).2.2.1
          (resolveEventInputs ev.inputs tc nc acc).2.2.2).2) := rfl

theorem resolveValues_nil (tc nc : Nat) (acc : List CompoundType) :
    resolveValues [] tc nc acc = ([], tc, nc, acc) := rfl

theorem resolveValues_cons (v : Value) (rest : List Value) (tc nc : Nat) (acc : List CompoundType) :
    resolveValues (v :: rest) tc nc acc =
      ((CompoundSingleValue v tc (some nc)).1 ::
        (resolveValues rest (CompoundSingleValue v tc (some nc)).2.2.1
          ((CompoundSingleValue v tc (some nc)).2.2.2.getD nc)
          (acc ++ (CompoundSingleValue v tc (some nc)).2.1)).1,
       (resolveValues rest (CompoundSingleValue v tc (some nc)).2.2.1
          ((CompoundSingleValue v tc (some nc)).2.2.2.getD nc)
          (acc ++ (CompoundSingleValue v tc (some nc)).2.1)).2) := rfl

theorem resolveOutputs_nil (tc : Nat) (acc : List CompoundType) :
    resolveOutputs [] tc acc = ([], tc, acc) := rfl

theorem resolveOutputs_cons (v : Value) (rest : List Value) (tc : Nat) (acc : List CompoundType) :
    resolveOutputs (v :: rest) tc acc =
      ((CompoundSingleValue v tc none).1 ::
        (resolveOutputs rest (CompoundSingleValue v tc none).2.2.1
          (acc ++ (CompoundSingleValue v tc none).2.1)).1,
       (resolveOutputs rest (CompoundSingleValue v tc none).2.2.1
          (acc ++ (CompoundSingleValue v tc none).2.1)).2) := rfl

theorem resolveFunctions_nil (tc nc : Nat) (acc : List CompoundType) :
    resolveFunctions [] tc nc acc = ([], tc, nc, acc) := rfl

theorem resolveFunctions_cons (fn : FunctionItem) (rest : List FunctionItem)
    (tc nc : Nat) (acc : List CompoundType) :
    resolveFunctions (fn :: rest) tc nc acc =
      ((⟨fn.type, fn.name, (resolveValues fn.inputs tc nc acc).1,
          (resolveOutputs fn.outputs (resolveValues fn.inputs tc nc acc).2.1
            (resolveValues fn.inputs tc nc acc).2.2.2).1,
          fn.stateMutability⟩ : FunctionItem) ::
        (resolveFunctions rest
          (resolveOutputs fn.outputs (resolveValues fn.inputs tc nc acc).2.1
            (resolveValues fn.inputs tc nc acc).2.2.2).2.1
          (resolveValues fn.inputs tc nc acc).2.2.1
          (resolveOutputs fn.outputs (resolveValues fn.inputs tc nc acc).2.1
            (resolveValues fn.inputs tc nc acc).2.2.2).2.2).1,
       (resolveFunctions rest
          (resolveOutputs fn.outputs (resolveValues fn.inputs tc nc acc).2.1
            (resolveValues fn.inputs tc nc acc).2.2.2).2.1
          (resolveValues fn.inputs tc nc acc).2.2.1
          (resolveOutputs fn.outputs (resolveValues fn.inputs tc nc acc).2.1
            (resolveValues fn.inputs tc nc acc).2.2.2).2.2).2) := rfl

theorem resolveErrors_nil (tc nc : Nat) (acc : List CompoundType) :
    resolveErrors [] tc nc acc = ([], tc, nc, acc) := rfl

theorem resolveErrors_cons (er : ErrorItem) (rest : List ErrorItem)
    (tc nc : Nat) (acc : List CompoundType) :
    resolveErrors (er :: rest) tc nc acc =
      ((⟨er.type, er.name, (resolveValues er.inputs tc nc acc).1⟩ : ErrorItem) ::
        (resolveErrors rest (resolveValues er.inputs tc nc acc).2.1
          (resolveValues er.inputs tc nc acc).2.2.1
          (resolveValues er.inputs tc nc acc).2.2.2).1,
       (resolveErrors rest (resolveValues er.inputs tc nc acc).2.1
          (resolveValues er.inputs tc nc acc).2.2.1
          (resolveValues er.inputs tc nc acc).2.2.2).2) := rfl

theorem ResolveCompounds_eq (abi : DecodedABI) :
    ResolveCompounds abi =
      ⟨abi,
       (resolveErrors abi.errors
         (resolveFunctions abi.functions (resolveEvents abi.events 0 0 []).2.1
           (resolveEvents abi.events 0 0 []).2.2.1 (resolveEvents abi.events 0 0 []).2.2.2).2.1
         (resolveFunctions abi.functions (resolveEvents abi.events 0 0 []).2.1
           (resolveEvents abi.events 0 0 []).2.2.1 (resolveEvents abi.events 0 0 []).2.2.2).2.2.1
         (resolveFunctions abi.functions (resolveEvents abi.events 0 0 []).2.1
           (resolveEvents abi.events 0 0 []).2.2.1 (resolveEvents abi.events 0 0 []).2.2.2).2.2.2).2.2.2,
       ⟨(resolveEvents abi.events 0 0 []).1,
        (resolveFunctions abi.functions (resolveEvents abi.events 0 0 []).2.1
          (resolveEvents abi.events 0 0 []).2.2.1 (resolveEvents abi.events 0 0 []).2.2.2).1,
        (resolveErrors abi.errors
          (resolveFunctions abi.functions (resolveEvents abi.events 0 0 []).2.1
            (resolveEvents abi.events 0 0 []).2.2.1 (resolveEvents abi.events 0 0 []).2.2.2).2.1
          (resolveFunctions abi.functions (resolveEvents abi.events 0 0 []).2.1
            (resolveEvents abi.events 0 0 []).2.2.1 (resolveEvents abi.events 0 0 []).2.2.2).2.2.1
          (resolveFunctions abi.functions (resolveEvents abi.events 0 0 []).2.1
            (resolveEvents abi.events 0 0 []).2.2.1 (resolveEvents abi.events 0 0 []).2.2.2).2.2.2).1⟩⟩ := rfl


/-! ### Accumulator normalization: the loops append their own contribution -/

theorem resolveEventInputs_acc (args : List EventArgument) (tc nc : Nat) (acc : List CompoundType) :
    resolveEventInputs args tc nc acc =
      ((resolveEventInputs args tc nc []).1, (resolveEventInputs args tc nc []).2.1,
       (resolveEventInputs args tc nc []).2.2.1, acc ++ (resolveEventInputs args tc nc []).2.2.2) := by
  induction args generalizing tc nc acc with
  | nil => simp [resolveEventInputs_nil]
  | cons arg rest ih =>
    rw [resolveEventInputs_cons, resolveEventInputs_cons]
    generalize CompoundSingleValue arg.value tc (some nc) = s
    obtain ⟨sv, st, stc, snc⟩ := s
    dsimp only
    rw [List.nil_append]
    rw [ih stc (snc.getD nc) (acc ++ st), ih stc (snc.getD nc) st]
    simp [List.append_assoc]

theorem resolveEvents_acc (items : List EventItem) (tc nc : Nat) (acc : List CompoundType) :
    resolveEvents items tc nc acc =
      ((resolveEvents items tc nc []).1, (resolveEvents items tc nc []).2.1,
       (resolveEvents items tc nc []).2.2.1, acc ++ (resolveEvents items tc nc []).2.2.2) := by
  induction items generalizing tc nc acc with
  | nil => simp [resolveEvents_nil]
  | cons ev rest ih =>
    rw [resolveEvents_cons, resolveEvents_cons]
    rw [resolveEventInputs_acc ev.inputs tc nc acc]
    generalize resolveEventInputs ev.inputs tc nc [] = E
    obtain ⟨Ei, Et, En, Ea⟩ := E
    dsimp only
    rw [ih Et En (acc ++ Ea), ih Et En Ea]
    simp [List.append_assoc]

theorem resolveValues_acc (vs : List Value) (tc nc : Nat) (acc : List CompoundType) :
    resolveValues vs tc nc acc =
      ((resolveValues vs tc nc []).1, (resolveValues vs tc nc []).2.1,
       (resolveValues vs tc nc []).2.2.1, acc ++ (resolveValues vs tc nc []).2.2.2) := by
  induction vs generalizing tc nc acc with
  | nil => simp [resolveValues_nil]
  | cons v rest ih =>
    rw [resolveValues_cons, resolveValues_cons]
    generalize CompoundSingleValue v tc (some nc) = s
    obtain ⟨sv, st, stc, snc⟩ := s
    dsimp only
    rw [List.nil_append]
    rw [ih stc (snc.getD nc) (acc ++ st), ih stc (snc.getD nc) st]
    simp [List.append_assoc]

theorem resolveOutputs_acc (vs : List Value) (tc : Nat) (acc : List CompoundType) :
    resolveOutputs vs tc acc =
      ((resolveOutputs vs tc []).1, (resolveOutputs vs tc []).2.1,
       acc ++ (resolveOutputs vs tc []).2.2) := by
  induction vs generalizing tc acc with
  | nil => simp [resolveOutputs_nil]
  | cons v rest ih =>
    rw [resolveOutputs_cons, resolveOutputs_cons]
    generalize CompoundSingleValue v tc none = s
    obtain ⟨sv, st, stc, snc⟩ := s
    dsimp only
    rw [List.nil_append]
    rw [ih stc (acc ++ st), ih stc st]
    simp [List.append_assoc]

theorem resolveFunctions_acc (items : List FunctionItem) (tc nc : Nat) (acc : List CompoundType) :
    resolveFunctions items tc nc acc =
      ((resolveFunctions items tc nc []).1, (resolveFunctions items tc nc []).2.1,
       (resolveFunctions items tc nc []).2.2.1, acc ++ (resolveFunctions items tc nc []).2.2.2) := by
  induction items generalizing tc nc acc with
  | nil => simp [resolveFunctions_nil]
  | cons fn rest ih =>
    rw [resolveFunctions_cons, resolveFunctions_cons]
    rw [resolveValues_acc fn.inputs tc nc acc]
    generalize resolveValues fn.inputs tc nc [] = I
    obtain ⟨Ii, It, In, Ia⟩ := I
    dsimp only
    rw [resolveOutputs_acc fn.outputs It (acc ++ Ia), resolveOutputs_acc fn.outputs It Ia]
    generalize resolveOutputs fn.outputs It [] = O
    obtain ⟨Oi, Ot, Oa⟩ := O
    dsimp only
    rw [ih Ot In (acc ++ Ia ++ Oa), ih Ot In (Ia ++ Oa)]
    simp [List.append_assoc]

theorem resolveErrors_acc (items : List ErrorItem) (tc nc : Nat) (acc : List CompoundType) :
    resolveErrors items tc nc acc =
      ((resolveErrors items tc nc []).1, (resolveErrors items tc nc []).2.1,
       (resolveErrors items tc nc []).2.2.1, acc ++ (resolveErrors items tc nc []).2.2.2) := by
  induction items generalizing tc nc acc with
  | nil => simp [resolveErrors_nil]
  | cons er rest ih =>
    rw [resolveErrors_cons, resolveErrors_cons]
    rw [resolveValues_acc er.inputs tc nc acc]
    generalize resolveValues er.inputs tc nc [] = I
    obtain ⟨Ii, It, In, Ia⟩ := I
    dsimp only
    rw [ih It In (acc ++ Ia), ih It In Ia]
    simp [List.append_assoc]

/-! ### C6: one synthesized type per compound node -/

mutual

theorem CSV_types_length : ∀ (v : Value) (tc : Nat) (nc : Option Nat),
    (CompoundSingleValue v tc nc).2.1.length = countCompound v
  | .mk nm ty it comps, tc, nc => by
    by_cases h : 0 < comps.length
    · rw [CSV_compound nm ty it comps tc nc h, List.length_append,
        compoundComponents_types_length comps tc nc]
      simp only [countCompound, List.length_singleton]
      rw [if_pos h]
      omega
    · have hcomps : comps = [] := by
        cases comps with
        | nil => rfl
        | cons a l => exact absurd (by simp) h
      subst hcomps
      rw [CSV_base _ tc nc (by simp [Value.IsCompoundType, Value.components])]
      simp [countCompound, countCompoundList]

theorem compoundComponents_types_length : ∀ (l : List Value) (tc : Nat) (nc : Option Nat),
    (compoundComponents l tc nc).2.1.length = countCompoundList l
  | [], tc, nc => by simp [compoundComponents_nil, countCompoundList]
  | c :: rest, tc, nc => by
    rw [compoundComponents_cons]
    dsimp only
    rw [ifLenPos, List.length_append, CSV_types_length c tc nc,
      compoundComponents_types_length rest (CompoundSingleValue c tc nc).2.2.1
        (CompoundSingleValue c tc nc).2.2.2]
    simp [countCompoundList]

end

theorem resolveEventInputs_types_count (args : List EventArgument) (tc nc : Nat) :
    (resolveEventInputs args tc nc []).2.2.2.length =
      countCompoundList (args.map (fun a => a.value)) := by
  induction args generalizing tc nc with
  | nil => simp [resolveEventInputs_nil, countCompoundList]
  | cons arg rest ih =>
    rw [resolveEventInputs_cons]
    dsimp only
    rw [resolveEventInputs_acc]
    dsimp only
    simp [CSV_types_length, ih, countCompoundList]

theorem resolveValues_types_count (vs : List Value) (tc nc : Nat) :
    (resolveValues vs tc nc []).2.2.2.length = countCompoundList vs := by
  induction vs generalizing tc nc with
  | nil => simp [resolveValues_nil, countCompoundList]
  | cons v rest ih =>
    rw [resolveValues_cons]
    dsimp only
    rw [resolveValues_acc]
    dsimp only
    simp [CSV_types_length, ih, countCompoundList]

theorem resolveOutputs_types_count (vs : List Value) (tc : Nat) :
    (resolveOutputs vs tc []).2.2.length = countCompoundList vs := by
  induction vs generalizing tc with
  | nil => simp [resolveOutputs_nil, countCompoundList]
  | cons v rest ih =>
    rw [resolveOutputs_cons]
    dsimp only
    rw [resolveOutputs_acc]
    dsimp only
    simp [CSV_types_length, ih, countCompoundList]

theorem resolveEvents_types_count (items : List EventItem) (tc nc : Nat) :
    (resolveEvents items tc nc []).2.2.2.length =
      (items.map (fun e => countCompoundList (e.inputs.map (fun a => a.value)))).sum := by
  induction items generalizing tc nc with
  | nil => simp [resolveEvents_nil]
  | cons ev rest ih =>
    rw [resolveEvents_cons]
    dsimp only
    rw [resolveEvents_acc]
    dsimp only
    simp [resolveEventInputs_types_count, ih]

theorem resolveFunctions_types_count (items : List FunctionItem) (tc nc : Nat) :
    (resolveFunctions items tc nc []).2.2.2.length =
      (items.map (fun f => countCompoundList f.inputs + countCompoundList f.outputs)).sum := by
  induction items generalizing tc nc with
  | nil => simp [resolveFunctions_nil]
  | cons fn rest ih =>
    rw [resolveFunctions_cons]
    dsimp only
    rw [resolveValues_acc]
    dsimp only
    rw [resolveOutputs_acc]
    dsimp only
    rw [resolveFunctions_acc]
    dsimp only
    simp [resolveValues_types_count, resolveOutputs_types_count, ih]
    omega

theorem resolveErrors_types_count (items : List ErrorItem) (tc nc : Nat) :
    (resolveErrors items tc nc []).2.2.2.length =
      (items.map (fun e => countCompoundList e.inputs)).sum := by
  induction items generalizing tc nc with
  | nil => simp [resolveErrors_nil]
  | cons er rest ih =>
    rw [resolveErrors_cons]
    dsimp only
    rw [resolveValues_acc]
    dsimp only
    rw [resolveErrors_acc]
    dsimp only
    simp [resolveValues_types_count, ih]

theorem ResolveCompounds_types_count (abi : DecodedABI) :
    (ResolveCompounds abi).compoundTypes.length = abiCompoundCount abi := by
  rw [ResolveCompounds_eq]
  dsimp only
  rw [resolveErrors_acc]
  dsimp only
  rw [resolveFunctions_acc]
  dsimp only
  rw [resolveEvents_acc]
  dsimp only
  simp [abiCompoundCount, resolveEvents_types_count, resolveFunctions_types_count,
    resolveErrors_types_count]
  omega

/-- Scenario C ABI: one event whose sole input is a compound and one function
whose sole input is a same-shaped compound. -/
def scenarioC_ABI : DecodedABI :=
  ⟨[⟨"event", "E", [⟨valScenarioA, false⟩], false⟩],
   [⟨"function", "f", [valScenarioA], [], "nonpayable"⟩],
   []⟩

/-- C6.  `ResolveCompounds` synthesizes exactly one type per compound node:
the length of the returned list equals the number of parameter nodes with
non-empty components across the whole ABI, and the Scenario C ABI (one event
and one function with same-shaped compound inputs) yields exactly two types. -/
theorem C6_fresh_type_per_compound (abi : DecodedABI) :
    (ResolveCompounds abi).compoundTypes.length = abiCompoundCount abi ∧
    (ResolveCompounds scenarioC_ABI).compoundTypes.length = 2 ∧
    flatABI (ResolveCompounds scenarioC_ABI).enrichedABI = true :=
  ⟨ResolveCompounds_types_count abi, rfl, rfl⟩

/-! ### C9: frame — metadata and shape preservation -/

theorem resolveEventInputs_shape (args : List EventArgument) (tc nc : Nat)
    (acc : List CompoundType) :
    (resolveEventInputs args tc nc acc).1.map (fun a => a.indexed) =
      args.map (fun a => a.indexed) ∧
    (resolveEventInputs args tc nc acc).1.length = args.length := by
  induction args generalizing tc nc acc with
  | nil => simp [resolveEventInputs_nil]
  | cons arg rest ih =>
    rw [resolveEventInputs_cons]
    dsimp only
    constructor
    · simp [(ih _ _ _).1]
    · simp [(ih _ _ _).2]

theorem resolveEvents_shape (items : List EventItem) (tc nc : Nat) (acc : List CompoundType) :
    (resolveEvents items tc nc acc).1.map (fun e => e.type) = items.map (fun e => e.type) ∧
    (resolveEvents items tc nc acc).1.map (fun e => e.name) = items.map (fun e => e.name) ∧
    (resolveEvents items tc nc acc).1.map (fun e => e.anonymous) =
      items.map (fun e => e.anonymous) ∧
    (resolveEvents items tc nc acc).1.map (fun e => e.inputs.map (fun a => a.indexed)) =
      items.map (fun e => e.inputs.map (fun a => a.indexed)) ∧
    (resolveEvents items tc nc acc).1.map (fun e => e.inputs.length) =
      items.map (fun e => e.inputs.length) := by
  induction items generalizing tc nc acc with
  | nil => simp [resolveEvents_nil]
  | cons ev rest ih =>
    rw [resolveEvents_cons]
    dsimp only
    refine ⟨?_, ?_, ?_, ?_, ?_⟩
    · simp [(ih _ _ _).1]
    · simp [(ih _ _ _).2.1]
    · simp [(ih _ _ _).2.2.1]
    · simp [(ih _ _ _).2.2.2.1, (resolveEventInputs_shape ev.inputs tc nc acc).1]
    · simp [(ih _ _ _).2.2.2.2, (resolveEventInputs_shape ev.inputs tc nc acc).2]

theorem resolveValues_shape (vs : List Value) (tc nc : Nat) (acc : List CompoundType) :
    (resolveValues vs tc nc acc).1.length = vs.length := by
  induction vs generalizing tc nc acc with
  | nil => simp [resolveValues_nil]
  | cons v rest ih =>
    rw [resolveValues_cons]
    dsimp only
    simp [ih]

theorem resolveOutputs_shape (vs : List Value) (tc : Nat) (acc : List CompoundType) :
    (resolveOutputs vs tc acc).1.length = vs.length := by
  induction vs generalizing tc acc with
  | nil => simp [resolveOutputs_nil]
  | cons v rest ih =>
    rw [resolveOutputs_cons]
    dsimp only
    simp [ih]

theorem resolveFunctions_shape (items : List FunctionItem) (tc nc : Nat)
    (acc : List CompoundType) :
    (resolveFunctions items tc nc acc).1.map (fun f => f.type) = items.map (fun f => f.type) ∧
    (resolveFunctions items tc nc acc).1.map (fun f => f.name) = items.map (fun f => f.name) ∧
    (resolveFunctions items tc nc acc).1.map (fun f => f.stateMutability) =
      items.map (fun f => f.stateMutability) ∧
    (resolveFunctions items tc nc acc).1.map (fun f => f.inputs.length) =
      items.map (fun f => f.inputs.length) ∧
    (resolveFunctions items tc nc acc).1.map (fun f => f.outputs.length) =
      items.map (fun f => f.outputs.length) := by
  induction items generalizing tc nc acc with
  | nil => simp [resolveFunctions_nil]
  | cons fn rest ih =>
    rw [resolveFunctions_cons]
    dsimp only
    refine ⟨?_, ?_, ?_, ?_, ?_⟩
    · simp [(ih _ _ _).1]
    · simp [(ih _ _ _).2.1]
    · simp [(ih _ _ _).2.2.1]
    · simp [(ih _ _ _).2.2.2.1, resolveValues_shape]
    · simp [(ih _ _ _).2.2.2.2, resolveOutputs_shape]

theorem resolveErrors_shape (items : List ErrorItem) (tc nc : Nat) (acc : List CompoundType) :
    (resolveErrors items tc nc acc).1.map (fun e => e.type) = items.map (fun e => e.type) ∧
    (resolveErrors items tc nc acc).1.map (fun e => e.name) = items.map (fun e => e.name) ∧
    (resolveErrors items tc nc acc).1.map (fun e => e.inputs.length) =
      items.map (fun e => e.inputs.length) := by
  induction items generalizing tc nc acc with
  | nil => simp [resolveErrors_nil]
  | cons er rest ih =>
    rw [resolveErrors_cons]
    dsimp only
    refine ⟨?_, ?_, ?_⟩
    · simp [(ih _ _ _).1]
    · simp [(ih _ _ _).2.1]
    · simp [(ih _ _ _).2.2, resolveValues_shape]

/-- C9.  Frame: `ResolveCompounds` keeps the original ABI unchanged in
`originalABI`, and the enriched ABI has the same shape with all non-parameter
metadata preserved: event types, names, anonymous flags and per-input indexed
flags; function types, names and state mutabilities; error types and names;
and identical counts of items and of inputs/outputs per item. -/
theorem C9_frame_metadata_preserved (abi : DecodedABI) :
    (ResolveCompounds abi).originalABI = abi ∧
    (ResolveCompounds abi).enrichedABI.events.map (fun e => e.type) =
      abi.events.map (fun e => e.type) ∧
    (ResolveCompounds abi).enrichedABI.events.map (fun e => e.name) =
      abi.events.map (fun e => e.name) ∧
    (ResolveCompounds abi).enrichedABI.events.map (fun e => e.anonymous) =
      abi.events.map (fun e => e.anonymous) ∧
    (ResolveCompounds abi).enrichedABI.events.map (fun e => e.inputs.map (fun a => a.indexed)) =
      abi.events.map (fun e => e.inputs.map (fun a => a.indexed)) ∧
    (ResolveCompounds abi).enrichedABI.events.map (fun e => e.inputs.length) =
      abi.events.map (fun e => e.inputs.length) ∧
    (ResolveCompounds abi).enrichedABI.functions.map (fun f => f.type) =
      abi.functions.map (fun f => f.type) ∧
    (ResolveCompounds abi).enrichedABI.functions.map (fun f => f.name) =
      abi.functions.map (fun f => f.name) ∧
    (ResolveCompounds abi).enrichedABI.functions.map (fun f => f.stateMutability) =
      abi.functions.map (fun f => f.stateMutability) ∧
    (ResolveCompounds abi).enrichedABI.functions.map (fun f => f.inputs.length) =
      abi.functions.map (fun f => f.inputs.length) ∧
    (ResolveCompounds abi).enrichedABI.functions.map (fun f => f.outputs.length) =
      abi.functions.map (fun f => f.outputs.length) ∧
    (ResolveCompounds abi).enrichedABI.errors.map (fun e => e.type) =
      abi.errors.map (fun e => e.type) ∧
    (ResolveCompounds abi).enrichedABI.errors.map (fun e => e.name) =
      abi.errors.map (fun e => e.name) ∧
    (ResolveCompounds abi).enrichedABI.errors.map (fun e => e.inputs.length) =
      abi.errors.map (fun e => e.inputs.length) ∧
    (ResolveCompounds abi).enrichedABI.events.length = abi.events.length ∧
    (ResolveCompounds abi).enrichedABI.functions.length = abi.functions.length ∧
    (ResolveCompounds abi).enrichedABI.errors.length = abi.errors.length := by
  rw [ResolveCompounds_eq]
  dsimp only
  have he := resolveEvents_shape abi.events 0 0 []
  have hf := resolveFunctions_shape abi.functions (resolveEvents abi.events 0 0 []).2.1
    (resolveEvents abi.events 0 0 []).2.2.1 (resolveEvents abi.events 0 0 []).2.2.2
  have hr := resolveErrors_shape abi.errors
    (resolveFunctions abi.functions (resolveEvents abi.events 0 0 []).2.1
      (resolveEvents abi.events 0 0 []).2.2.1 (resolveEvents abi.events 0 0 []).2.2.2).2.1
    (resolveFunctions abi.functions (resolveEvents abi.events 0 0 []).2.1
      (resolveEvents abi.events 0 0 []).2.2.1 (resolveEvents abi.events 0 0 []).2.2.2).2.2.1
    (resolveFunctions abi.functions (resolveEvents abi.events 0 0 []).2.1
      (resolveEvents abi.events 0 0 []).2.2.1 (resolveEvents abi.events 0 0 []).2.2.2).2.2.2
  refine ⟨rfl, he.1, he.2.1, he.2.2.1, he.2.2.2.1, he.2.2.2.2,
    hf.1, hf.2.1, hf.2.2.1, hf.2.2.2.1, hf.2.2.2.2, hr.1, hr.2.1, hr.2.2, ?_, ?_, ?_⟩
  · have := congrArg List.length he.1
    simpa using this
  · have := congrArg List.length hf.1
    simpa using this
  · have := congrArg List.length hr.1
    simpa using this

/-! ### C8: traversal and accumulation order -/

/-- An ABI with one compound in every parameter position, to exhibit the
traversal order observably. -/
def orderDemoABI : DecodedABI :=
  ⟨[⟨"event", "E", [⟨Value.mk "e1" "tuple" "" [Value.mk "a" "uint256" "" []], false⟩], false⟩],
   [⟨"function", "f", [Value.mk "fi" "tuple" "" [Value.mk "b" "uint256" "" []]],
     [Value.mk "fo" "tuple" "" [Value.mk "c" "uint256" "" []]], "nonpayable"⟩],
   [⟨"error", "X", [Value.mk "er" "tuple" "" [Value.mk "d" "uint256" "" []]]⟩]⟩

/-- C8.  `ResolveCompounds` accumulates the per-call new-type lists in exactly
the traversal order: all events (in order), then all functions (inputs before
outputs), then all errors, with per-parameter lists concatenated in parameter
order; the counters flow left to right through the phases.  The final conjunct
shows the order on a concrete ABI with a compound in every position. -/
theorem C8_traversal_order (abi : DecodedABI) :
    ((ResolveCompounds abi).compoundTypes =
      (resolveEvents abi.events 0 0 []).2.2.2 ++
      (resolveFunctions abi.functions (resolveEvents abi.events 0 0 []).2.1
        (resolveEvents abi.events 0 0 []).2.2.1 []).2.2.2 ++
      (resolveErrors abi.errors
        (resolveFunctions abi.functions (resolveEvents abi.events 0 0 []).2.1
          (resolveEvents abi.events 0 0 []).2.2.1 []).2.1
        (resolveFunctions abi.functions (resolveEvents abi.events 0 0 []).2.1
          (resolveEvents abi.events 0 0 []).2.2.1 []).2.2.1 []).2.2.2) ∧
    (∀ (ev : EventItem) (rest : List EventItem) (tc nc : Nat),
      (resolveEvents (ev :: rest) tc nc []).2.2.2 =
        (resolveEventInputs ev.inputs tc nc []).2.2.2 ++
        (resolveEvents rest (resolveEventInputs ev.inputs tc nc []).2.1
          (resolveEventInputs ev.inputs tc nc []).2.2.1 []).2.2.2) ∧
    (∀ (arg : EventArgument) (rest : List EventArgument) (tc nc : Nat),
      (resolveEventInputs (arg :: rest) tc nc []).2.2.2 =
        (CompoundSingleValue arg.value tc (some nc)).2.1 ++
        (resolveEventInputs rest (CompoundSingleValue arg.value tc (some nc)).2.2.1
          ((CompoundSingleValue arg.value tc (some nc)).2.2.2.getD nc) []).2.2.2) ∧
    (∀ (fn : FunctionItem) (rest : List FunctionItem) (tc nc : Nat),
      (resolveFunctions (fn :: rest) tc nc []).2.2.2 =
        (resolveValues fn.inputs tc nc []).2.2.2 ++
        (resolveOutputs fn.outputs (resolveValues fn.inputs tc nc []).2.1 []).2.2 ++
        (resolveFunctions rest
          (resolveOutputs fn.outputs (resolveValues fn.inputs tc nc []).2.1 []).2.1
          (resolveValues fn.inputs tc nc []).2.2.1 []).2.2.2) ∧
    (∀ (v : Value) (rest : List Value) (tc nc : Nat),
      (resolveValues (v :: rest) tc nc []).2.2.2 =
        (CompoundSingleValue v tc (some nc)).2.1 ++
        (resolveValues rest (CompoundSingleValue v tc (some nc)).2.2.1
          ((CompoundSingleValue v tc (some nc)).2.2.2.getD nc) []).2.2.2) ∧
    (∀ (v : Value) (rest : List Value) (tc : Nat),
      (resolveOutputs (v :: rest) tc []).2.2 =
        (CompoundSingleValue v tc none).2.1 ++
        (resolveOutputs rest (CompoundSingleValue v tc none).2.2.1 []).2.2) ∧
    (∀ (er : ErrorItem) (rest : List ErrorItem) (tc nc : Nat),
      (resolveErrors (er :: rest) tc nc []).2.2.2 =
        (resolveValues er.inputs tc nc []).2.2.2 ++
        (resolveErrors rest (resolveValues er.inputs tc nc []).2.1
          (resolveValues er.inputs tc nc []).2.2.1 []).2.2.2) ∧
    (ResolveCompounds orderDemoABI).compoundTypes.map (fun t => t.typeName) =
      ["Compound0", "Compound1", "Compound2", "Compound3"] := by
  refine ⟨?_, ?_, ?_, ?_, ?_, ?_, ?_, rfl⟩
  · rw [ResolveCompounds_eq]
    dsimp only
    rw [resolveFunctions_acc]
    dsimp only
    rw [resolveErrors_acc]
  · intro ev rest tc nc
    rw [resolveEvents_cons]
    dsimp only
    rw [resolveEvents_acc]
  · intro arg rest tc nc
    rw [resolveEventInputs_cons]
    dsimp only
    rw [resolveEventInputs_acc]
    dsimp only
    simp
  · intro fn rest tc nc
    rw [resolveFunctions_cons]
    dsimp only
    rw [resolveOutputs_acc]
    dsimp only
    rw [resolveFunctions_acc]
  · intro v rest tc nc
    rw [resolveValues_cons]
    dsimp only
    rw [resolveValues_acc]
    dsimp only
    simp
  · intro v rest tc
    rw [resolveOutputs_cons]
    dsimp only
    rw [resolveOutputs_acc]
    dsimp only
    simp
  · intro er rest tc nc
    rw [resolveErrors_cons]
    dsimp only
    rw [resolveValues_acc]
    dsimp only
    rw [resolveErrors_acc]

/-! ### C2: bottom-up emission order -/

theorem compoundComponents_values_length (comps : List Value) (tc : Nat) (nc : Option Nat) :
    (compoundComponents comps tc nc).1.length = comps.length := by
  induction comps generalizing tc nc with
  | nil => rfl
  | cons c rest ih =>
    rw [compoundComponents_cons]
    dsimp only
    simp [ih]

theorem buildMembers_values (comps : List Value) (nc : Option Nat) :
    (buildMembers comps nc).1.map (fun m => m.value) = comps := by
  induction comps generalizing nc with
  | nil => rfl
  | cons c rest ih =>
    simp only [buildMembers]
    simp [ih]

theorem CSV_list_structure (v : Value) (tc : Nat) (nc : Option Nat)
    (h : v.IsCompoundType = true) :
    (CompoundSingleValue v tc nc).2.1 =
      (compoundComponents v.components tc nc).2.1 ++
      [⟨(GenerateType (compoundComponents v.components tc nc).2.2.1 v.internalType).1,
        (buildMembers (compoundComponents v.components tc nc).1
          (compoundComponents v.components tc nc).2.2.2).1⟩] := by
  cases v with
  | mk nm ty it comps =>
    have hlen : 0 < comps.length := by
      simpa [Value.IsCompoundType, Value.components] using h
    rw [CSV_compound nm ty it comps tc nc hlen]
    simp only [Value.components, Value.internalType]

theorem CSV_types_ne_nil (v : Value) (tc : Nat) (nc : Option Nat)
    (h : v.IsCompoundType = true) :
    (CompoundSingleValue v tc nc).2.1 ≠ [] := by
  rw [CSV_list_structure v tc nc h]
  simp

/-- The synthesized-type list of every component is an infix of the list the
component loop contributes. -/
theorem mem_child_types_infix (comps : List Value) (tc : Nat) (nc : Option Nat) :
    ∀ c ∈ comps, ∃ tci nci,
      List.IsInfix (CompoundSingleValue c tci nci).2.1 (compoundComponents comps tc nc).2.1 := by
  induction comps generalizing tc nc with
  | nil => intro c hc; simp at hc
  | cons a rest ih =>
    intro c hc
    rw [List.mem_cons] at hc
    rcases hc with hc | hc
    · subst hc
      refine ⟨tc, nc, ?_⟩
      rw [compoundComponents_cons]
      dsimp only
      rw [ifLenPos]
      exact (List.prefix_append _ _).isInfix
    · obtain ⟨tci, nci, hinf⟩ := ih (CompoundSingleValue a tc nc).2.2.1
        (CompoundSingleValue a tc nc).2.2.2 c hc
      refine ⟨tci, nci, ?_⟩
      apply hinf.trans
      rw [compoundComponents_cons]
      dsimp only
      rw [ifLenPos]
      exact (List.suffix_append _ _).isInfix

/-- Strict descendants of a parameter node. -/
inductive Value.IsDescendant : Value → Value → Prop
  | child {d v : Value} : d ∈ v.components → Value.IsDescendant d v
  | step {d c v : Value} : Value.IsDescendant d c → c ∈ v.components → Value.IsDescendant d v

theorem IsDescendant_compound (d c : Value) (h : d.IsDescendant c) :
    c.IsCompoundType = true := by
  have : c.components ≠ [] := by
    cases h with
    | child hm => intro he; rw [he] at hm; simp at hm
    | step hd hm => intro he; rw [he] at hm; simp at hm
  cases hx : c.components with
  | nil => exact absurd hx this
  | cons a l => simp [Value.IsCompoundType, hx]

/-- The synthesized-type list of every compound strict descendant is an infix
of the list contributed by the ancestor's component loop. -/
theorem descendant_types_infix (d v : Value) (h : d.IsDescendant v) :
    ∀ (tc : Nat) (nc : Option Nat), ∃ tcd ncd,
      List.IsInfix (CompoundSingleValue d tcd ncd).2.1
        (compoundComponents v.components tc nc).2.1 := by
  induction h with
  | child hm =>
    intro tc nc
    exact mem_child_types_infix _ tc nc _ hm
  | step hd hm ih =>
    intro tc nc
    rename_i cmid vout
    obtain ⟨tci, nci, hc⟩ := mem_child_types_infix vout.components tc nc cmid hm
    have hcc : cmid.IsCompoundType = true := IsDescendant_compound d cmid hd
    obtain ⟨tcd, ncd, hdInf⟩ := ih tci nci
    refine ⟨tcd, ncd, ?_⟩
    apply hdInf.trans
    apply List.IsInfix.trans ?_ hc
    rw [CSV_list_structure cmid tci nci hcc]
    exact (List.prefix_append _ _).isInfix

/-- Replacement type of a compound value: the synthesized name of its own
(last-emitted) compound type, with `[]` appended exactly when the original
type string ends in `[]`. -/
theorem CSV_result_type_eq (v : Value) (tc : Nat) (nc : Option Nat)
    (h : v.IsCompoundType = true) :
    (CompoundSingleValue v tc nc).1.type =
      ((CompoundSingleValue v tc nc).2.1.getLastD ⟨"", []⟩).typeName ++
        (if hasSuf v.type "[]" then "[]" else "") := by
  cases v with
  | mk nm ty it comps =>
    have hlen : 0 < comps.length := by
      simpa [Value.IsCompoundType, Value.components] using h
    rw [CSV_compound nm ty it comps tc nc hlen]
    simp only [Value.type, Value.name, getLastD_append_singleton]
    by_cases hs : hasSuf ty "[]" = true
    · simp [hs]
    · rw [Bool.not_eq_true] at hs
      simp [hs]

theorem compoundComponents_get (comps : List Value) (tc : Nat) (nc : Option Nat) :
    ∀ (i : Nat) (c : Value), comps[i]? = some c → ∃ tci nci,
      ((compoundComponents comps tc nc).1)[i]? = some (CompoundSingleValue c tci nci).1 := by
  induction comps generalizing tc nc with
  | nil => intro i c hc; simp at hc
  | cons a rest ih =>
    intro i c hc
    rw [compoundComponents_cons]
    dsimp only
    cases i with
    | zero =>
      simp at hc
      subst hc
      exact ⟨tc, nc, by simp⟩
    | succ j =>
      simp at hc
      obtain ⟨tci, nci, hr⟩ := ih (CompoundSingleValue a tc nc).2.2.1
        (CompoundSingleValue a tc nc).2.2.2 j c hc
      exact ⟨tci, nci, by simpa using hr⟩

/-- C2 (amended).  Bottom-up emission: the ancestor's synthesized type is
appended last after all child contributions in child order; every compound
strict descendant's own synthesized type appears in the child-contributed part
(hence strictly before the ancestor's); the ancestor's members are exactly the
resolved children in order, and a compound child's replacement carries the
child's synthesized type name — with `[]` appended exactly when the child's
original type string ends in `[]` — as its type; Scenario B yields two types,
inner first, and the outer type's second member's type is the inner name. -/
theorem C2_bottom_up (v : Value) (tc : Nat) (nc : Option Nat) (h : v.IsCompoundType = true) :
    ((CompoundSingleValue v tc nc).2.1 =
      (compoundComponents v.components tc nc).2.1 ++
      [⟨(GenerateType (compoundComponents v.components tc nc).2.2.1 v.internalType).1,
        (buildMembers (compoundComponents v.components tc nc).1
          (compoundComponents v.components tc nc).2.2.2).1⟩]) ∧
    (∀ d : Value, d.IsDescendant v → d.IsCompoundType = true →
      ∃ tcd ncd t, ((CompoundSingleValue d tcd ncd).2.1).getLast? = some t ∧
        t ∈ (compoundComponents v.components tc nc).2.1) ∧
    ((buildMembers (compoundComponents v.components tc nc).1
        (compoundComponents v.components tc nc).2.2.2).1.map (fun m => m.value) =
      (compoundComponents v.components tc nc).1) ∧
    (∀ (i : Nat) (c : Value), v.components[i]? = some c → ∃ tci nci,
      ((compoundComponents v.components tc nc).1)[i]? =
        some (CompoundSingleValue c tci nci).1) ∧
    (∀ (c : Value) (tci : Nat) (nci : Option Nat), c.IsCompoundType = true →
      (CompoundSingleValue c tci nci).1.type =
        ((CompoundSingleValue c tci nci).2.1.getLastD ⟨"", []⟩).typeName ++
          (if hasSuf c.type "[]" then "[]" else "")) ∧
    ((CompoundSingleValue valScenarioB 0 (some 0)).2.1.map (fun t => t.typeName) =
      ["Compound0", "Compound1"] ∧
     ((CompoundSingleValue valScenarioB 0 (some 0)).2.1.getLastD ⟨"", []⟩).members.map
        (fun m => m.value.type) = ["uint256", "Compound0"]) := by
  refine ⟨CSV_list_structure v tc nc h, ?_, buildMembers_values _ _,
    compoundComponents_get v.components tc nc, CSV_result_type_eq, by decide, by decide⟩
  intro d hd hdc
  obtain ⟨tcd, ncd, hinf⟩ := descendant_types_infix d v hd tc nc
  have hstruct := CSV_list_structure d tcd ncd hdc
  refine ⟨tcd, ncd,
    ⟨(GenerateType (compoundComponents d.components tcd ncd).2.2.1 d.internalType).1,
     (buildMembers (compoundComponents d.components tcd ncd).1
       (compoundComponents d.components tcd ncd).2.2.2).1⟩, ?_, ?_⟩
  · rw [hstruct]
    exact List.getLast?_concat _
  · apply hinf.subset
    rw [hstruct]
    simp

/-- C2 witness: the bottom-up structure evaluated on the Scenario B value. -/
theorem C2_bottom_up_witness :
    valScenarioB.IsCompoundType = true ∧
    (CompoundSingleValue valScenarioB 0 (some 0)).2.1 =
      (compoundComponents valScenarioB.components 0 (some 0)).2.1 ++
      [⟨(GenerateType (compoundComponents valScenarioB.components 0 (some 0)).2.2.1
          valScenarioB.internalType).1,
        (buildMembers (compoundComponents valScenarioB.components 0 (some 0)).1
          (compoundComponents valScenarioB.components 0 (some 0)).2.2.2).1⟩] :=
  ⟨rfl, (C2_bottom_up valScenarioB 0 (some 0) rfl).1⟩

/-- C2 counterexample.  For a compound child whose type string ends in `[]`,
the ancestor's member type is the child's synthesized name with `[]` appended,
not the bare synthesized name as the claim states. -/
theorem C2_counterexample :
    ((CompoundSingleValue valNestedArray 0 (some 0)).2.1.map (fun t => t.typeName) =
      ["Compound0", "Compound1"]) ∧
    (((CompoundSingleValue valNestedArray 0 (some 0)).2.1.getLastD ⟨"", []⟩).members.map
        (fun m => m.value.type) = ["Compound0[]"]) ∧
    ("Compound0[]" : String) ≠ "Compound0" := by
  refine ⟨by decide, by decide, by decide⟩

/-! ### C4: placeholder naming policy -/

theorem buildMembers_none_nc (comps : List Value) : (buildMembers comps none).2 = none := by
  induction comps with
  | nil => rfl
  | cons c rest ih =>
    by_cases h : c.name = "" <;> simp [buildMembers, h, ih]

theorem buildMembers_none_names (comps : List Value) :
    (buildMembers comps none).1.map (fun m => m.name) = comps.map (fun c => c.name) := by
  induction comps with
  | nil => rfl
  | cons c rest ih =>
    by_cases h : c.name = "" <;> simp [buildMembers, h, ih]

mutual

theorem CSV_none_nc : ∀ (v : Value) (tc : Nat), (CompoundSingleValue v tc none).2.2.2 = none
  | .mk nm ty it comps, tc => by
    by_cases h : 0 < comps.length
    · rw [CSV_compound nm ty it comps tc none h]
      dsimp only
      rw [compoundComponents_none_nc comps tc, buildMembers_none_nc]
    · have hcomps : comps = [] := by
        cases comps with
        | nil => rfl
        | cons a l => exact absurd (by simp) h
      subst hcomps
      rw [CSV_base _ tc none (by simp [Value.IsCompoundType, Value.components])]

theorem compoundComponents_none_nc : ∀ (comps : List Value) (tc : Nat),
    (compoundComponents comps tc none).2.2.2 = none
  | [], tc => rfl
  | c :: rest, tc => by
    rw [compoundComponents_cons]
    dsimp only
    rw [CSV_none_nc c tc, compoundComponents_none_nc rest (CompoundSingleValue c tc none).2.2.1]

end

theorem buildMembers_some_nc (comps : List Value) :
    ∀ n : Nat, ∃ n2 : Nat, (buildMembers comps (some n)).2 = some n2 := by
  induction comps with
  | nil => intro n; exact ⟨n, rfl⟩
  | cons c rest ih =>
    intro n
    by_cases h : c.name = ""
    · obtain ⟨n2, h2⟩ := ih ((GenerateName n).2)
      exact ⟨n2, by simp [buildMembers, h, h2]⟩
    · obtain ⟨n2, h2⟩ := ih n
      exact ⟨n2, by simp [buildMembers, h, h2]⟩

mutual

theorem CSV_some_nc : ∀ (v : Value) (tc n : Nat),
    ∃ n2 : Nat, (CompoundSingleValue v tc (some n)).2.2.2 = some n2
  | .mk nm ty it comps, tc, n => by
    by_cases h : 0 < comps.length
    · rw [CSV_compound nm ty it comps tc (some n) h]
      dsimp only
      obtain ⟨n1, h1⟩ := compoundComponents_some_nc comps tc n
      rw [h1]
      exact buildMembers_some_nc _ n1
    · have hcomps : comps = [] := by
        cases comps with
        | nil => rfl
        | cons a l => exact absurd (by simp) h
      subst hcomps
      rw [CSV_base _ tc (some n) (by simp [Value.IsCompoundType, Value.components])]
      exact ⟨n, rfl⟩

theorem compoundComponents_some_nc : ∀ (comps : List Value) (tc n : Nat),
    ∃ n2 : Nat, (compoundComponents comps tc (some n)).2.2.2 = some n2
  | [], tc, n => ⟨n, rfl⟩
  | c :: rest, tc, n => by
    rw [compoundComponents_cons]
    dsimp only
    obtain ⟨n1, h1⟩ := CSV_some_nc c tc n
    rw [h1]
    exact compoundComponents_some_nc rest (CompoundSingleValue c tc (some n)).2.2.1 n1

end

theorem GenerateName_ne_empty (k : Nat) : (GenerateName k).1 ≠ "" := by
  intro h
  have := congrArg String.length h
  rw [GenerateName] at this
  dsimp only at this
  rw [String.length_append] at this
  have h9 : ("Attribute" : String).length = 9 := rfl
  have h0 : ("" : String).length = 0 := rfl
  omega

theorem buildMembers_some_names (comps : List Value) :
    ∀ n : Nat, ∀ m ∈ (buildMembers comps (some n)).1, m.name ≠ "" := by
  induction comps with
  | nil => intro n m hm; simp [buildMembers] at hm
  | cons c rest ih =>
    intro n m hm
    by_cases h : c.name = ""
    · simp only [buildMembers, h, if_true, if_pos] at hm
      rw [List.mem_cons] at hm
      rcases hm with hm | hm
      · subst hm
        exact GenerateName_ne_empty n
      · exact ih ((GenerateName n).2) m (by simpa using hm)
    · simp only [buildMembers, h, if_false, if_neg] at hm
      rw [List.mem_cons] at hm
      rcases hm with hm | hm
      · subst hm
        exact h
      · exact ih n m (by simpa [h] using hm)

mutual

theorem CSV_member_names_ne : ∀ (v : Value) (tc n : Nat),
    ∀ ct ∈ (CompoundSingleValue v tc (some n)).2.1, ∀ m ∈ ct.members, m.name ≠ ""
  | .mk nm ty it comps, tc, n => by
    by_cases h : 0 < comps.length
    · rw [CSV_compound nm ty it comps tc (some n) h]
      dsimp only
      intro ct hct
      rw [List.mem_append] at hct
      rcases hct with hct | hct
      · exact compoundComponents_member_names_ne comps tc n ct hct
      · rw [List.mem_singleton] at hct
        subst hct
        dsimp only
        obtain ⟨n1, h1⟩ := compoundComponents_some_nc comps tc n
        rw [h1]
        exact buildMembers_some_names _ n1
    · have hcomps : comps = [] := by
        cases comps with
        | nil => rfl
        | cons a l => exact absurd (by simp) h
      subst hcomps
      rw [CSV_base _ tc (some n) (by simp [Value.IsCompoundType, Value.components])]
      intro ct hct
      simp at hct

theorem compoundComponents_member_names_ne : ∀ (comps : List Value) (tc n : Nat),
    ∀ ct ∈ (compoundComponents comps tc (some n)).2.1, ∀ m ∈ ct.members, m.name ≠ ""
  | [], tc, n => by intro ct hct; simp [compoundComponents_nil] at hct
  | c :: rest, tc, n => by
    rw [compoundComponents_cons]
    dsimp only
    rw [ifLenPos]
    intro ct hct
    rw [List.mem_append] at hct
    rcases hct with hct | hct
    · exact CSV_member_names_ne c tc n ct hct
    · obtain ⟨n1, h1⟩ := CSV_some_nc c tc n
      rw [h1] at hct
      exact compoundComponents_member_names_ne rest (CompoundSingleValue c tc (some n)).2.2.1 n1
        ct hct

end

theorem CSV_name (v : Value) (tc : Nat) (nc : Option Nat) :
    (CompoundSingleValue v tc nc).1.name = v.name := by
  cases v with
  | mk nm ty it comps =>
    by_cases h : 0 < comps.length
    · rw [CSV_compound nm ty it comps tc nc h]
      simp [Value.name]
    · have hcomps : comps = [] := by
        cases comps with
        | nil => rfl
        | cons a l => exact absurd (by simp) h
      subst hcomps
      rw [CSV_base _ tc nc (by simp [Value.IsCompoundType, Value.components])]

theorem compoundComponents_names (comps : List Value) (tc : Nat) (nc : Option Nat) :
    (compoundComponents comps tc nc).1.map (fun x => x.name) =
      comps.map (fun x => x.name) := by
  induction comps generalizing tc nc with
  | nil => rfl
  | cons c rest ih =>
    rw [compoundComponents_cons]
    dsimp only
    simp [CSV_name, ih]

theorem run_outputOnly (v : Value) :
    (ResolveCompounds (outputOnlyABI v)).compoundTypes = (CompoundSingleValue v 0 none).2.1 := rfl

theorem run_inputOnly (v : Value) :
    (ResolveCompounds (inputOnlyABI v)).compoundTypes =
      (CompoundSingleValue v 0 (some 0)).2.1 := rfl

theorem run_eventOnly (v : Value) :
    (ResolveCompounds (eventOnlyABI v)).compoundTypes =
      (CompoundSingleValue v 0 (some 0)).2.1 := rfl

theorem run_errorOnly (v : Value) :
    (ResolveCompounds (errorOnlyABI v)).compoundTypes =
      (CompoundSingleValue v 0 (some 0)).2.1 := rfl

/-- C4 (amended).  Function outputs are resolved with the nil name counter and
all other contexts with the shared counter; resolving a compound function
output with at least one empty-named component yields a compound type with an
empty member name, while the same parameter resolved as function input, event
input or error input yields no empty member names. -/
theorem C4_placeholder_policy (v : Value) (h1 : v.IsCompoundType = true)
    (h2 : ∃ c ∈ v.components, c.name = "") :
    ((ResolveCompounds (outputOnlyABI v)).compoundTypes =
        (CompoundSingleValue v 0 none).2.1 ∧
     (ResolveCompounds (inputOnlyABI v)).compoundTypes =
        (CompoundSingleValue v 0 (some 0)).2.1 ∧
     (ResolveCompounds (eventOnlyABI v)).compoundTypes =
        (CompoundSingleValue v 0 (some 0)).2.1 ∧
     (ResolveCompounds (errorOnlyABI v)).compoundTypes =
        (CompoundSingleValue v 0 (some 0)).2.1) ∧
    (∃ ct ∈ (ResolveCompounds (outputOnlyABI v)).compoundTypes,
      ∃ m ∈ ct.members, m.name = "") ∧
    (∀ ct ∈ (ResolveCompounds (inputOnlyABI v)).compoundTypes,
      ∀ m ∈ ct.members, m.name ≠ "") ∧
    (∀ ct ∈ (ResolveCompounds (eventOnlyABI v)).compoundTypes,
      ∀ m ∈ ct.members, m.name ≠ "") ∧
    (∀ ct ∈ (ResolveCompounds (errorOnlyABI v)).compoundTypes,
      ∀ m ∈ ct.members, m.name ≠ "") := by
  refine ⟨⟨run_outputOnly v, run_inputOnly v, run_eventOnly v, run_errorOnly v⟩, ?_, ?_, ?_, ?_⟩
  · rw [run_outputOnly v, CSV_list_structure v 0 none h1]
    refine ⟨⟨(GenerateType (compoundComponents v.components 0 none).2.2.1 v.internalType).1,
      (buildMembers (compoundComponents v.components 0 none).1
        (compoundComponents v.components 0 none).2.2.2).1⟩, by simp, ?_⟩
    obtain ⟨c, hc, hcname⟩ := h2
    have hnone := compoundComponents_none_nc v.components 0
    rw [hnone]
    have hnames : (buildMembers (compoundComponents v.components 0 none).1 none).1.map
        (fun m => m.name) = v.components.map (fun x => x.name) := by
      rw [buildMembers_none_names, compoundComponents_names]
    have hmem : ("" : String) ∈ (buildMembers (compoundComponents v.components 0 none).1
        none).1.map (fun m => m.name) := by
      rw [hnames]
      rw [List.mem_map]
      exact ⟨c, hc, hcname⟩
    rw [List.mem_map] at hmem
    obtain ⟨m, hm, hmn⟩ := hmem
    exact ⟨m, hm, hmn⟩
  · rw [run_inputOnly v]
    exact CSV_member_names_ne v 0 0
  · rw [run_eventOnly v]
    exact CSV_member_names_ne v 0 0
  · rw [run_errorOnly v]
    exact CSV_member_names_ne v 0 0

/-- An unnamed compound parameter with one unnamed component. -/
def valUnnamed : Value := Value.mk "" "tuple" "" [Value.mk "" "uint256" "" []]

/-- An unnamed compound parameter whose components are all named. -/
def valUnnamedNamedChild : Value := Value.mk "" "tuple" "" [Value.mk "a" "uint256" "" []]

/-- C4 witness: the amended statement evaluated on a concrete parameter. -/
theorem C4_placeholder_policy_witness :
    (valUnnamed.IsCompoundType = true ∧ (∃ c ∈ valUnnamed.components, c.name = "")) ∧
    ((∃ ct ∈ (ResolveCompounds (outputOnlyABI valUnnamed)).compoundTypes,
       ∃ m ∈ ct.members, m.name = "") ∧
     (∀ ct ∈ (ResolveCompounds (inputOnlyABI valUnnamed)).compoundTypes,
       ∀ m ∈ ct.members, m.name ≠ "")) :=
  ⟨⟨rfl, by decide⟩,
   ⟨(C4_placeholder_policy valUnnamed rfl (by decide)).2.1,
    (C4_placeholder_policy valUnnamed rfl (by decide)).2.2.1⟩⟩

/-- C4 counterexample.  An unnamed compound function-output parameter whose
components are all named yields no empty member name at all, contradicting the
claim as stated. -/
theorem C4_counterexample :
    valUnnamedNamedChild.name = "" ∧ valUnnamedNamedChild.IsCompoundType = true ∧
    ((ResolveCompounds (outputOnlyABI valUnnamedNamedChild)).compoundTypes.map
      (fun ct => ct.members.map (fun m => m.name)) = [["a"]]) ∧
    ¬ (∃ ct ∈ (ResolveCompounds (outputOnlyABI valUnnamedNamedChild)).compoundTypes,
        ∃ m ∈ ct.members, m.name = "") := by
  refine ⟨rfl, rfl, by decide, by decide⟩

/-! ### C3: counter alignment of synthesized type names -/

/-- Every type at position `i` of the list carries counter value `tc + i` in
its name, after some prefix. -/
def TypesAligned (ts : List CompoundType) (tc : Nat) : Prop :=
  ∀ (i : Nat) (t : CompoundType), ts[i]? = some t → ∃ p, t.typeName = p ++ Nat.repr (tc + i)

theorem TypesAligned_nil (tc : Nat) : TypesAligned [] tc := by
  intro i t h
  simp at h

theorem TypesAligned_append (ts us : List CompoundType) (tc : Nat)
    (h1 : TypesAligned ts tc) (h2 : TypesAligned us (tc + ts.length)) :
    TypesAligned (ts ++ us) tc := by
  intro i t h
  by_cases hi : i < ts.length
  · rw [List.getElem?_append_left hi] at h
    exact h1 i t h
  · rw [List.getElem?_append_right (by omega)] at h
    obtain ⟨p, hp⟩ := h2 (i - ts.length) t h
    refine ⟨p, ?_⟩
    rw [hp]
    have : tc + ts.length + (i - ts.length) = tc + i := by omega
    rw [this]

mutual

theorem CSV_aligned : ∀ (v : Value) (tc : Nat) (nc : Option Nat),
    (CompoundSingleValue v tc nc).2.2.1 = tc + (CompoundSingleValue v tc nc).2.1.length ∧
    TypesAligned (CompoundSingleValue v tc nc).2.1 tc
  | .mk nm ty it comps, tc, nc => by
    by_cases h : 0 < comps.length
    · have hc := compoundComponents_aligned comps tc nc
      rw [CSV_compound nm ty it comps tc nc h]
      dsimp only
      constructor
      · rw [GenerateType]
        dsimp only
        rw [List.length_append, List.length_singleton, hc.1]
        omega
      · refine TypesAligned_append _ _ _ hc.2 ?_
        intro i t hi
        cases i with
        | zero =>
          simp at hi
          subst hi
          refine ⟨ParseInternalType it, ?_⟩
          dsimp only
          rw [GenerateType]
          dsimp only
          rw [hc.1]
          simp
        | succ j => simp at hi
    · have hcomps : comps = [] := by
        cases comps with
        | nil => rfl
        | cons a l => exact absurd (by simp) h
      subst hcomps
      rw [CSV_base _ tc nc (by simp [Value.IsCompoundType, Value.components])]
      exact ⟨rfl, TypesAligned_nil tc⟩

theorem compoundComponents_aligned : ∀ (comps : List Value) (tc : Nat) (nc : Option Nat),
    (compoundComponents comps tc nc).2.2.1 =
      tc + (compoundComponents comps tc nc).2.1.length ∧
    TypesAligned (compoundComponents comps tc nc).2.1 tc
  | [], tc, nc => ⟨rfl, TypesAligned_nil tc⟩
  | c :: rest, tc, nc => by
    rw [compoundComponents_cons]
    dsimp only
    rw [ifLenPos]
    have hs := CSV_aligned c tc nc
    have hr := compoundComponents_aligned rest (CompoundSingleValue c tc nc).2.2.1
      (CompoundSingleValue c tc nc).2.2.2
    constructor
    · rw [List.length_append, hr.1, hs.1]
      omega
    · refine TypesAligned_append _ _ _ hs.2 ?_
      rw [← hs.1]
      exact hr.2

end

theorem resolveEventInputs_aligned (args : List EventArgument) (tc nc : Nat) :
    (resolveEventInputs args tc nc []).2.1 =
      tc + (resolveEventInputs args tc nc []).2.2.2.length ∧
    TypesAligned (resolveEventInputs args tc nc []).2.2.2 tc := by
  induction args generalizing tc nc with
  | nil => exact ⟨rfl, TypesAligned_nil tc⟩
  | cons arg rest ih =>
    rw [resolveEventInputs_cons]
    dsimp only
    rw [resolveEventInputs_acc]
    dsimp only
    simp only [List.nil_append]
    have hs := CSV_aligned arg.value tc (some nc)
    have ihr := ih (CompoundSingleValue arg.value tc (some nc)).2.2.1
      ((CompoundSingleValue arg.value tc (some nc)).2.2.2.getD nc)
    constructor
    · have h1 := ihr.1
      have h2 := hs.1
      simp only [List.length_append]
      omega
    · refine TypesAligned_append _ _ _ hs.2 ?_
      rw [← hs.1]
      exact ihr.2

theorem resolveValues_aligned (vs : List Value) (tc nc : Nat) :
    (resolveValues vs tc nc []).2.1 = tc + (resolveValues vs tc nc []).2.2.2.length ∧
    TypesAligned (resolveValues vs tc nc []).2.2.2 tc := by
  induction vs generalizing tc nc with
  | nil => exact ⟨rfl, TypesAligned_nil tc⟩
  | cons v rest ih =>
    rw [resolveValues_cons]
    dsimp only
    rw [resolveValues_acc]
    dsimp only
    simp only [List.nil_append]
    have hs := CSV_aligned v tc (some nc)
    have ihr := ih (CompoundSingleValue v tc (some nc)).2.2.1
      ((CompoundSingleValue v tc (some nc)).2.2.2.getD nc)
    constructor
    · have h1 := ihr.1
      have h2 := hs.1
      simp only [List.length_append]
      omega
    · refine TypesAligned_append _ _ _ hs.2 ?_
      rw [← hs.1]
      exact ihr.2

theorem resolveOutputs_aligned (vs : List Value) (tc : Nat) :
    (resolveOutputs vs tc []).2.1 = tc + (resolveOutputs vs tc []).2.2.length ∧
    TypesAligned (resolveOutputs vs tc []).2.2 tc := by
  induction vs generalizing tc with
  | nil => exact ⟨rfl, TypesAligned_nil tc⟩
  | cons v rest ih =>
    rw [resolveOutputs_cons]
    dsimp only
    rw [resolveOutputs_acc]
    dsimp only
    simp only [List.nil_append]
    have hs := CSV_aligned v tc none
    have ihr := ih (CompoundSingleValue v tc none).2.2.1
    constructor
    · have h1 := ihr.1
      have h2 := hs.1
      simp only [List.length_append]
      omega
    · refine TypesAligned_append _ _ _ hs.2 ?_
      rw [← hs.1]
      exact ihr.2

theorem resolveEvents_aligned (items : List EventItem) (tc nc : Nat) :
    (resolveEvents items tc nc []).2.1 = tc + (resolveEvents items tc nc []).2.2.2.length ∧
    TypesAligned (resolveEvents items tc nc []).2.2.2 tc := by
  induction items generalizing tc nc with
  | nil => exact ⟨rfl, TypesAligned_nil tc⟩
  | cons ev rest ih =>
    rw [resolveEvents_cons]
    dsimp only
    rw [resolveEventInputs_acc]
    dsimp only
    rw [resolveEvents_acc]
    dsimp only
    simp only [List.nil_append]
    have hs := resolveEventInputs_aligned ev.inputs tc nc
    have ihr := ih (resolveEventInputs ev.inputs tc nc []).2.1
      (resolveEventInputs ev.inputs tc nc []).2.2.1
    constructor
    · have h1 := ihr.1
      have h2 := hs.1
      simp only [List.length_append]
      omega
    · refine TypesAligned_append _ _ _ hs.2 ?_
      rw [← hs.1]
      exact ihr.2

theorem resolveFunctions_aligned (items : List FunctionItem) (tc nc : Nat) :
    (resolveFunctions items tc nc []).2.1 =
      tc + (resolveFunctions items tc nc []).2.2.2.length ∧
    TypesAligned (resolveFunctions items tc nc []).2.2.2 tc := by
  induction items generalizing tc nc with
  | nil => exact ⟨rfl, TypesAligned_nil tc⟩
  | cons fn rest ih =>
    rw [resolveFunctions_cons]
    dsimp only
    rw [resolveValues_acc]
    dsimp only
    rw [resolveOutputs_acc]
    dsimp only
    rw [resolveFunctions_acc]
    dsimp only
    simp only [List.nil_append]
    have hi := resolveValues_aligned fn.inputs tc nc
    have ho := resolveOutputs_aligned fn.outputs (resolveValues fn.inputs tc nc []).2.1
    have ihr := ih (resolveOutputs fn.outputs (resolveValues fn.inputs tc nc []).2.1 []).2.1
      (resolveValues fn.inputs tc nc []).2.2.1
    constructor
    · have h1 := ihr.1
      have h2 := ho.1
      have h3 := hi.1
      simp only [List.length_append]
      omega
    · refine TypesAligned_append _ _ _ ?_ ?_
      · refine TypesAligned_append _ _ _ hi.2 ?_
        rw [← hi.1]
        exact ho.2
      · simp only [List.length_append]
        have hbase : tc + ((resolveValues fn.inputs tc nc []).2.2.2.length +
            (resolveOutputs fn.outputs (resolveValues fn.inputs tc nc []).2.1 []).2.2.length) =
            (resolveOutputs fn.outputs (resolveValues fn.inputs tc nc []).2.1 []).2.1 := by
          have h2 := ho.1
          have h3 := hi.1
          omega
        rw [hbase]
        exact ihr.2

theorem resolveErrors_aligned (items : List ErrorItem) (tc nc : Nat) :
    (resolveErrors items tc nc []).2.1 = tc + (resolveErrors items tc nc []).2.2.2.length ∧
    TypesAligned (resolveErrors items tc nc []).2.2.2 tc := by
  induction items generalizing tc nc with
  | nil => exact ⟨rfl, TypesAligned_nil tc⟩
  | cons er rest ih =>
    rw [resolveErrors_cons]
    dsimp only
    rw [resolveValues_acc]
    dsimp only
    rw [resolveErrors_acc]
    dsimp only
    simp only [List.nil_append]
    have hs := resolveValues_aligned er.inputs tc nc
    have ihr := ih (resolveValues er.inputs tc nc []).2.1
      (resolveValues er.inputs tc nc []).2.2.1
    constructor
    · have h1 := ihr.1
      have h2 := hs.1
      simp only [List.length_append]
      omega
    · refine TypesAligned_append _ _ _ hs.2 ?_
      rw [← hs.1]
      exact ihr.2

theorem ResolveCompounds_aligned (abi : DecodedABI) :
    TypesAligned (ResolveCompounds abi).compoundTypes 0 := by
  rw [ResolveCompounds_eq]
  dsimp only
  rw [resolveFunctions_acc]
  dsimp only
  rw [resolveErrors_acc]
  dsimp only
  have he := resolveEvents_aligned abi.events 0 0
  have hf := resolveFunctions_aligned abi.functions (resolveEvents abi.events 0 0 []).2.1
    (resolveEvents abi.events 0 0 []).2.2.1
  have hr := resolveErrors_aligned abi.errors
    (resolveFunctions abi.functions (resolveEvents abi.events 0 0 []).2.1
      (resolveEvents abi.events 0 0 []).2.2.1 []).2.1
    (resolveFunctions abi.functions (resolveEvents abi.events 0 0 []).2.1
      (resolveEvents abi.events 0 0 []).2.2.1 []).2.2.1
  rw [List.append_assoc]
  refine TypesAligned_append _ _ _ he.2 ?_
  have hbase1 : 0 + (resolveEvents abi.events 0 0 []).2.2.2.length =
      (resolveEvents abi.events 0 0 []).2.1 := by
    have := he.1
    omega
  rw [hbase1]
  refine TypesAligned_append _ _ _ hf.2 ?_
  rw [← hf.1]
  exact hr.2

theorem buildMembers_names (comps : List Value) :
    ∀ n : Nat, (buildMembers comps (some n)).1.map (fun m => m.name) =
      withPlaceholders comps n := by
  induction comps with
  | nil => intro n; rfl
  | cons c rest ih =>
    intro n
    by_cases h : c.name = "" <;>
      simp [buildMembers, withPlaceholders, h, ih, GenerateName, attr]

/-- Number of empty-named values among the first `i` entries of the list. -/
def eBefore (comps : List Value) (i : Nat) : Nat := countEmpty (comps.take i)

theorem eBefore_zero (comps : List Value) : eBefore comps 0 = 0 := rfl

theorem eBefore_cons_succ (c : Value) (rest : List Value) (k : Nat) :
    eBefore (c :: rest) (k + 1) = (if c.name = "" then 1 else 0) + eBefore rest k := by
  simp [eBefore, countEmpty, List.take]

theorem eBefore_mono (comps : List Value) : ∀ i j : Nat, i ≤ j →
    eBefore comps i ≤ eBefore comps j := by
  induction comps with
  | nil => intro i j _; simp [eBefore]
  | cons a rest ih =>
    intro i j hij
    cases i with
    | zero => rw [eBefore_zero]; exact Nat.zero_le _
    | succ k =>
      cases j with
      | zero => omega
      | succ l =>
        rw [eBefore_cons_succ, eBefore_cons_succ]
        have := ih k l (by omega)
        omega

theorem eBefore_succ_of_empty (comps : List Value) : ∀ (i : Nat) (ci : Value),
    comps[i]? = some ci → ci.name = "" → eBefore comps (i + 1) = eBefore comps i + 1 := by
  induction comps with
  | nil => intro i ci h; simp at h
  | cons a rest ih =>
    intro i ci h hname
    cases i with
    | zero =>
      simp at h
      subst h
      rw [eBefore_cons_succ]
      simp [hname, eBefore_zero, eBefore]
      omega
    | succ k =>
      simp at h
      rw [eBefore_cons_succ, eBefore_cons_succ, ih k ci h hname]
      omega

theorem withPlaceholders_get (comps : List Value) :
    ∀ (n i : Nat) (c : Value), comps[i]? = some c →
      (withPlaceholders comps n)[i]? =
        some (if c.name = "" then attr (n + eBefore comps i) else c.name) := by
  induction comps with
  | nil => intro n i c hc; simp at hc
  | cons a rest ih =>
    intro n i c hc
    cases i with
    | zero =>
      simp at hc
      subst hc
      by_cases h : a.name = "" <;> simp [withPlaceholders, h, eBefore_zero]
    | succ k =>
      simp at hc
      by_cases h : a.name = ""
      · have harith : n + eBefore (a :: rest) (k + 1) = (n + 1) + eBefore rest k := by
          rw [eBefore_cons_succ]
          simp [h]
          omega
        rw [harith]
        have := ih (n + 1) k c hc
        simp [withPlaceholders, h, this]
      · have harith : n + eBefore (a :: rest) (k + 1) = n + eBefore rest k := by
          rw [eBefore_cons_succ]
          simp [h]
        rw [harith]
        have := ih n k c hc
        simp [withPlaceholders, h, this]

theorem buildMembers_generated_distinct (comps : List Value) (n : Nat) :
    ∀ (i j : Nat) (mi mj : NamedValue) (ci cj : Value),
      (buildMembers comps (some n)).1[i]? = some mi →
      (buildMembers comps (some n)).1[j]? = some mj →
      comps[i]? = some ci → comps[j]? = some cj →
      ci.name = "" → cj.name = "" → i ≠ j → mi.name ≠ mj.name := by
  have key : ∀ (i : Nat) (mi : NamedValue) (ci : Value),
      (buildMembers comps (some n)).1[i]? = some mi → comps[i]? = some ci →
      ci.name = "" → mi.name = attr (n + eBefore comps i) := by
    intro i mi ci hm hc hname
    have hmap : ((buildMembers comps (some n)).1.map (fun m => m.name))[i]? =
        some mi.name := by
      rw [List.getElem?_map, hm]
      rfl
    rw [buildMembers_names comps n, withPlaceholders_get comps n i ci hc, hname] at hmap
    simp at hmap
    rw [hmap]
  intro i j mi mj ci cj hmi hmj hci hcj hni hnj hij
  rw [key i mi ci hmi hci hni, key j mj cj hmj hcj hnj]
  have hne : n + eBefore comps i ≠ n + eBefore comps j := by
    rcases Nat.lt_or_ge i j with hlt | hge
    · have h1 : eBefore comps (i + 1) = eBefore comps i + 1 :=
        eBefore_succ_of_empty comps i ci hci hni
      have h2 : eBefore comps (i + 1) ≤ eBefore comps j := eBefore_mono comps (i + 1) j hlt
      omega
    · have hlt : j < i := by omega
      have h1 : eBefore comps (j + 1) = eBefore comps j + 1 :=
        eBefore_succ_of_empty comps j cj hcj hnj
      have h2 : eBefore comps (j + 1) ≤ eBefore comps i := eBefore_mono comps (j + 1) i hlt
      omega
  exact attr_inj _ _ hne

/-- C3 (amended).  The single run-wide counter is strictly increasing and never
reused: the type at position `i` of the result embeds counter value `i` in its
name after its prefix, so any two synthesized names built from the same prefix
are distinct; and with placeholder naming enabled the generated member names
for two distinct unnamed components of one compound are distinct. -/
theorem C3_name_uniqueness (abi : DecodedABI) :
    (∀ (i : Nat) (t : CompoundType),
      (ResolveCompounds abi).compoundTypes[i]? = some t →
      ∃ p, t.typeName = p ++ Nat.repr i) ∧
    (∀ (i j : Nat) (p : String) (ti tj : CompoundType),
      (ResolveCompounds abi).compoundTypes[i]? = some ti →
      (ResolveCompounds abi).compoundTypes[j]? = some tj →
      ti.typeName = p ++ Nat.repr i → tj.typeName = p ++ Nat.repr j →
      i ≠ j → ti.typeName ≠ tj.typeName) ∧
    (∀ (comps : List Value) (n i j : Nat) (mi mj : NamedValue) (ci cj : Value),
      (buildMembers comps (some n)).1[i]? = some mi →
      (buildMembers comps (some n)).1[j]? = some mj →
      comps[i]? = some ci → comps[j]? = some cj →
      ci.name = "" → cj.name = "" → i ≠ j → mi.name ≠ mj.name) := by
  refine ⟨?_, ?_, ?_⟩
  · intro i t ht
    obtain ⟨p, hp⟩ := ResolveCompounds_aligned abi i t ht
    refine ⟨p, ?_⟩
    rw [hp]
    simp
  · intro i j p ti tj hti htj hpi hpj hij
    rw [hpi, hpj]
    exact prefixed_repr_ne p i j hij
  · intro comps n i j mi mj ci cj hmi hmj hci hcj hni hnj hij
    exact buildMembers_generated_distinct comps n i j mi mj ci cj hmi hmj hci hcj hni hnj hij

/-- An ABI whose run produces a type-name collision across different
`ParseInternalType` prefixes: `struct A1` at counter 0 and `struct A` at
counter 10 both synthesize the name `A10`. -/
def abiC3 : DecodedABI :=
  ⟨[],
   [⟨"function", "f",
     [Value.mk "p0" "tuple" "struct A1" [Value.mk "x" "uint256" "" []],
      Value.mk "p1" "tuple" "" [Value.mk "x" "uint256" "" []],
      Value.mk "p2" "tuple" "" [Value.mk "x" "uint256" "" []],
      Value.mk "p3" "tuple" "" [Value.mk "x" "uint256" "" []],
      Value.mk "p4" "tuple" "" [Value.mk "x" "uint256" "" []],
      Value.mk "p5" "tuple" "" [Value.mk "x" "uint256" "" []],
      Value.mk "p6" "tuple" "" [Value.mk "x" "uint256" "" []],
      Value.mk "p7" "tuple" "" [Value.mk "x" "uint256" "" []],
      Value.mk "p8" "tuple" "" [Value.mk "x" "uint256" "" []],
      Value.mk "p9" "tuple" "" [Value.mk "x" "uint256" "" []],
      Value.mk "p10" "tuple" "struct A" [Value.mk "x" "uint256" "" []]],
     [], "nonpayable"⟩],
   []⟩

/-- C3 counterexample.  The synthesized names of one run are not pairwise
distinct: positions 0 and 10 both carry the name `A10`. -/
theorem C3_counterexample :
    ((ResolveCompounds abiC3).compoundTypes.map (fun t => t.typeName) =
      ["A10", "Compound1", "Compound2", "Compound3", "Compound4", "Compound5",
       "Compound6", "Compound7", "Compound8", "Compound9", "A10"]) ∧
    ¬ List.Pairwise (fun a b : String => a ≠ b)
        ((ResolveCompounds abiC3).compoundTypes.map (fun t => t.typeName)) := by
  exact ⟨by decide, by decide⟩

/-- C3 witness: the counter-alignment statement evaluated on a concrete run. -/
theorem C3_name_uniqueness_witness :
    (ResolveCompounds orderDemoABI).compoundTypes[0]? =
      some ⟨"Compound0", [⟨"a", Value.mk "a" "uint256" "" []⟩]⟩ ∧
    ∃ p, (⟨"Compound0", [⟨"a", Value.mk "a" "uint256" "" []⟩]⟩ : CompoundType).typeName =
      p ++ Nat.repr 0 :=
  ⟨rfl,
   (C3_name_uniqueness orderDemoABI).1 0
     ⟨"Compound0", [⟨"a", Value.mk "a" "uint256" "" []⟩]⟩ rfl⟩

/-! ### C10: generated placeholder names are globally unique in a run -/

theorem attr_injective : Function.Injective attr := by
  intro a b hab
  by_contra hne
  exact attr_inj a b hne hab

theorem genNamesMembers_eq (comps : List Value) :
    ∀ n : Nat, genNamesMembers comps n = (List.range' n (countEmpty comps)).map attr := by
  induction comps with
  | nil => intro n; rfl
  | cons c rest ih =>
    intro n
    by_cases h : c.name = ""
    · have hc : countEmpty (c :: rest) = countEmpty rest + 1 := by
        simp [countEmpty, h]
        omega
      rw [hc, List.range'_succ]
      simp [genNamesMembers, h, ih]
    · have hc : countEmpty (c :: rest) = countEmpty rest := by
        simp [countEmpty, h]
      rw [hc]
      simp [genNamesMembers, h, ih]

mutual

theorem genNamesValue_eq : ∀ (v : Value) (n : Nat),
    genNamesValue v n = (List.range' n (unnamedCount v)).map attr
  | .mk nm ty it comps, n => by
    by_cases h : 0 < comps.length
    · rw [genNamesValue, unnamedCount]
      rw [if_pos h, if_pos h]
      rw [genNamesList_eq comps n, genNamesMembers_eq comps (n + unnamedCountList comps)]
      rw [← List.map_append, List.range'_append_1]
      congr 1
      congr 1
      omega
    · rw [genNamesValue, unnamedCount]
      rw [if_neg h, if_neg h]
      rfl

theorem genNamesList_eq : ∀ (comps : List Value) (n : Nat),
    genNamesList comps n = (List.range' n (unnamedCountList comps)).map attr
  | [], n => rfl
  | c :: rest, n => by
    rw [genNamesList, unnamedCountList]
    rw [genNamesValue_eq c n, genNamesList_eq rest (n + unnamedCount c)]
    rw [← List.map_append, List.range'_append_1]
    congr 1
    congr 1
    omega

end

theorem genNamesEvents_eq (items : List EventItem) :
    ∀ n : Nat, genNamesEvents items n =
      (List.range' n
        ((items.map (fun e => unnamedCountList (e.inputs.map (fun a => a.value)))).sum)).map
        attr := by
  induction items with
  | nil => intro n; rfl
  | cons ev rest ih =>
    intro n
    rw [genNamesEvents, genNamesList_eq, ih]
    rw [← List.map_append, List.range'_append_1]
    simp only [List.map_cons, List.sum_cons]
    congr 1
    congr 1
    omega

theorem genNamesFunctions_eq (items : List FunctionItem) :
    ∀ n : Nat, genNamesFunctions items n =
      (List.range' n ((items.map (fun f => unnamedCountList f.inputs)).sum)).map attr := by
  induction items with
  | nil => intro n; rfl
  | cons fn rest ih =>
    intro n
    rw [genNamesFunctions, genNamesList_eq, ih]
    rw [← List.map_append, List.range'_append_1]
    simp only [List.map_cons, List.sum_cons]
    congr 1
    congr 1
    omega

theorem genNamesErrors_eq (items : List ErrorItem) :
    ∀ n : Nat, genNamesErrors items n =
      (List.range' n ((items.map (fun e => unnamedCountList e.inputs)).sum)).map attr := by
  induction items with
  | nil => intro n; rfl
  | cons er rest ih =>
    intro n
    rw [genNamesErrors, genNamesList_eq, ih]
    rw [← List.map_append, List.range'_append_1]
    simp only [List.map_cons, List.sum_cons]
    congr 1
    congr 1
    omega

theorem range'_glue (s a b t : Nat) (ht : t = s + a) :
    List.range' s a ++ List.range' t b = List.range' s (a + b) := by
  subst ht
  rw [List.range'_append_1]
  congr 1
  omega

theorem genNamesRun_eq (abi : DecodedABI) :
    genNamesRun abi = (List.range' 0 (abiUnnamedCount abi)).map attr := by
  rw [genNamesRun]
  rw [genNamesEvents_eq, genNamesFunctions_eq, genNamesErrors_eq]
  rw [← List.map_append, ← List.map_append]
  rw [range'_glue 0
    ((abi.events.map (fun e => unnamedCountList (e.inputs.map (fun a => a.value)))).sum)
    ((abi.functions.map (fun f => unnamedCountList f.inputs)).sum) _ (by omega)]
  rw [range'_glue 0
    ((abi.events.map (fun e => unnamedCountList (e.inputs.map (fun a => a.value)))).sum +
      (abi.functions.map (fun f => unnamedCountList f.inputs)).sum)
    ((abi.errors.map (fun e => unnamedCountList e.inputs)).sum) _ (by omega)]
  rw [abiUnnamedCount]

theorem genNamesRun_pairwise_ne (abi : DecodedABI) :
    List.Pairwise (fun a b => a ≠ b) (genNamesRun abi) := by
  rw [genNamesRun_eq]
  exact (List.nodup_range' 0 (abiUnnamedCount abi)).map attr_injective

theorem buildMembers_nc_count (comps : List Value) :
    ∀ n : Nat, (buildMembers comps (some n)).2 = some (n + countEmpty comps) := by
  induction comps with
  | nil => intro n; rfl
  | cons c rest ih =>
    intro n
    by_cases h : c.name = ""
    · have : countEmpty (c :: rest) = 1 + countEmpty rest := by simp [countEmpty, h]
      rw [this]
      simp only [buildMembers, h, if_pos]
      rw [ih ((GenerateName n).2)]
      rw [GenerateName]
      dsimp only
      congr 1
      omega
    · have : countEmpty (c :: rest) = countEmpty rest := by simp [countEmpty, h]
      rw [this]
      simp only [buildMembers, h, if_neg, if_false]
      exact ih n

theorem countEmpty_congr : ∀ (l1 l2 : List Value),
    l1.map (fun x => x.name) = l2.map (fun x => x.name) → countEmpty l1 = countEmpty l2 := by
  intro l1
  induction l1 with
  | nil =>
    intro l2 h
    have : l2 = [] := by
      cases l2 with
      | nil => rfl
      | cons b t => simp at h
    subst this
    rfl
  | cons a t ih =>
    intro l2 h
    cases l2 with
    | nil => simp at h
    | cons b u =>
      simp at h
      rw [countEmpty, countEmpty, h.1, ih u h.2]

mutual

theorem CSV_nc_count : ∀ (v : Value) (tc n : Nat),
    (CompoundSingleValue v tc (some n)).2.2.2 = some (n + unnamedCount v)
  | .mk nm ty it comps, tc, n => by
    by_cases h : 0 < comps.length
    · rw [CSV_compound nm ty it comps tc (some n) h]
      dsimp only
      rw [compoundComponents_nc_count comps tc n, buildMembers_nc_count]
      have hnames : ((compoundComponents comps tc (some n)).1).map (fun x => x.name) =
          comps.map (fun x => x.name) := compoundComponents_names comps tc (some n)
      rw [countEmpty_congr _ _ hnames]
      rw [unnamedCount, if_pos h]
      congr 1
      omega
    · have hcomps : comps = [] := by
        cases comps with
        | nil => rfl
        | cons a l => exact absurd (by simp) h
      subst hcomps
      rw [CSV_base _ tc (some n) (by simp [Value.IsCompoundType, Value.components])]
      rw [unnamedCount]
      rfl

theorem compoundComponents_nc_count : ∀ (comps : List Value) (tc n : Nat),
    (compoundComponents comps tc (some n)).2.2.2 = some (n + unnamedCountList comps)
  | [], tc, n => by rw [unnamedCountList]; rfl
  | c :: rest, tc, n => by
    rw [compoundComponents_cons]
    dsimp only
    rw [CSV_nc_count c tc n,
      compoundComponents_nc_count rest (CompoundSingleValue c tc (some n)).2.2.1
        (n + unnamedCount c)]
    rw [unnamedCountList]
    congr 1
    omega

end

theorem resolveEventInputs_nc_count (args : List EventArgument) (tc nc : Nat) :
    (resolveEventInputs args tc nc []).2.2.1 =
      nc + unnamedCountList (args.map (fun a => a.value)) := by
  induction args generalizing tc nc with
  | nil => simp [resolveEventInputs_nil, unnamedCountList]
  | cons arg rest ih =>
    rw [resolveEventInputs_cons]
    dsimp only
    rw [resolveEventInputs_acc]
    dsimp only
    rw [CSV_nc_count arg.value tc nc]
    dsimp only [Option.getD_some]
    rw [ih]
    simp only [List.map_cons]
    rw [unnamedCountList]
    omega

theorem resolveValues_nc_count (vs : List Value) (tc nc : Nat) :
    (resolveValues vs tc nc []).2.2.1 = nc + unnamedCountList vs := by
  induction vs generalizing tc nc with
  | nil => simp [resolveValues_nil, unnamedCountList]
  | cons v rest ih =>
    rw [resolveValues_cons]
    dsimp only
    rw [resolveValues_acc]
    dsimp only
    rw [CSV_nc_count v tc nc]
    dsimp only [Option.getD_some]
    rw [ih]
    rw [unnamedCountList]
    omega

theorem resolveEvents_nc_count (items : List EventItem) (tc nc : Nat) :
    (resolveEvents items tc nc []).2.2.1 =
      nc + (items.map (fun e => unnamedCountList (e.inputs.map (fun a => a.value)))).sum := by
  induction items generalizing tc nc with
  | nil => simp [resolveEvents_nil]
  | cons ev rest ih =>
    rw [resolveEvents_cons]
    dsimp only
    rw [resolveEventInputs_acc]
    dsimp only
    rw [resolveEvents_acc]
    dsimp only
    rw [ih, resolveEventInputs_nc_count]
    simp only [List.map_cons, List.sum_cons]
    omega

theorem resolveFunctions_nc_count (items : List FunctionItem) (tc nc : Nat) :
    (resolveFunctions items tc nc []).2.2.1 =
      nc + (items.map (fun f => unnamedCountList f.inputs)).sum := by
  induction items generalizing tc nc with
  | nil => simp [resolveFunctions_nil]
  | cons fn rest ih =>
    rw [resolveFunctions_cons]
    dsimp only
    rw [resolveValues_acc]
    dsimp only
    rw [resolveOutputs_acc]
    dsimp only
    rw [resolveFunctions_acc]
    dsimp only
    rw [ih, resolveValues_nc_count]
    simp only [List.map_cons, List.sum_cons]
    omega

theorem resolveErrors_nc_count (items : List ErrorItem) (tc nc : Nat) :
    (resolveErrors items tc nc []).2.2.1 =
      nc + (items.map (fun e => unnamedCountList e.inputs)).sum := by
  induction items generalizing tc nc with
  | nil => simp [resolveErrors_nil]
  | cons er rest ih =>
    rw [resolveErrors_cons]
    dsimp only
    rw [resolveValues_acc]
    dsimp only
    rw [resolveErrors_acc]
    dsimp only
    rw [ih, resolveValues_nc_count]
    simp only [List.map_cons, List.sum_cons]
    omega

theorem buildMembers_gen_name (comps : List Value) (n : Nat) :
    ∀ (i : Nat) (mi : NamedValue) (ci : Value),
      (buildMembers comps (some n)).1[i]? = some mi → comps[i]? = some ci →
      ci.name = "" → mi.name = attr (n + eBefore comps i) := by
  intro i mi ci hm hc hname
  have hmap : ((buildMembers comps (some n)).1.map (fun m => m.name))[i]? = some mi.name := by
    rw [List.getElem?_map, hm]
    rfl
  rw [buildMembers_names comps n, withPlaceholders_get comps n i ci hc, hname] at hmap
  simp at hmap
  rw [hmap]

theorem buildMembers_gen_name_mem (comps : List Value) (n : Nat) :
    ∀ (i : Nat) (mi : NamedValue) (ci : Value),
      (buildMembers comps (some n)).1[i]? = some mi → comps[i]? = some ci →
      ci.name = "" → mi.name ∈ genNamesMembers comps n := by
  intro i mi ci hm hc hname
  rw [buildMembers_gen_name comps n i mi ci hm hc hname, genNamesMembers_eq]
  have hlt : i < comps.length := (List.getElem?_eq_some_iff.mp hc).1
  have hstep : eBefore comps (i + 1) = eBefore comps i + 1 :=
    eBefore_succ_of_empty comps i ci hc hname
  have htotal : eBefore comps comps.length = countEmpty comps := by
    rw [eBefore, List.take_length]
  have hmono : eBefore comps (i + 1) ≤ eBefore comps comps.length :=
    eBefore_mono comps (i + 1) comps.length (by omega)
  have hbound : eBefore comps i < countEmpty comps := by omega
  apply List.mem_map_of_mem
  rw [List.mem_range'_1]
  omega

/-- An ABI whose run produces a generated placeholder `Attribute0` next to an
original member that was already named `Attribute0`. -/
def abiC10 : DecodedABI :=
  eventOnlyABI (Value.mk "t" "tuple" ""
    [Value.mk "" "uint256" "" [], Value.mk "Attribute0" "uint256" "" []])

/-- C10.  All placeholder member names generated in one `ResolveCompounds` run
come from a single shared strictly increasing counter: the generated names of
a run are exactly `Attribute0 … Attribute(m-1)` in order and are pairwise
distinct; the counter is advanced by exactly the number of unnamed components
at every resolver call and threaded through events, function inputs and errors
(outputs consume nothing); every member that received a generated name carries
one of the generated names; a generated placeholder can still coincide with an
original member name such as `Attribute0`. -/
theorem C10_placeholder_global_uniqueness :
    (∀ (v : Value) (n : Nat),
      genNamesValue v n = (List.range' n (unnamedCount v)).map attr) ∧
    (∀ abi : DecodedABI,
      genNamesRun abi = (List.range' 0 (abiUnnamedCount abi)).map attr) ∧
    (∀ abi : DecodedABI, List.Pairwise (fun a b => a ≠ b) (genNamesRun abi)) ∧
    (∀ (v : Value) (tc n : Nat),
      (CompoundSingleValue v tc (some n)).2.2.2 = some (n + unnamedCount v)) ∧
    (∀ (items : List EventItem) (tc nc : Nat),
      (resolveEvents items tc nc []).2.2.1 =
        nc + (items.map (fun e => unnamedCountList (e.inputs.map (fun a => a.value)))).sum) ∧
    (∀ (items : List FunctionItem) (tc nc : Nat),
      (resolveFunctions items tc nc []).2.2.1 =
        nc + (items.map (fun f => unnamedCountList f.inputs)).sum) ∧
    (∀ (items : List ErrorItem) (tc nc : Nat),
      (resolveErrors items tc nc []).2.2.1 =
        nc + (items.map (fun e => unnamedCountList e.inputs)).sum) ∧
    (∀ (comps : List Value) (n i : Nat) (mi : NamedValue) (ci : Value),
      (buildMembers comps (some n)).1[i]? = some mi → comps[i]? = some ci →
      ci.name = "" → mi.name ∈ genNamesMembers comps n) ∧
    ((ResolveCompounds abiC10).compoundTypes.map
      (fun ct => ct.members.map (fun m => m.name)) = [["Attribute0", "Attribute0"]]) := by
  refine ⟨genNamesValue_eq, genNamesRun_eq, genNamesRun_pairwise_ne, CSV_nc_count,
    resolveEvents_nc_count, resolveFunctions_nc_count, resolveErrors_nc_count,
    ?_, by decide⟩
  intro comps n i mi ci hm hc hname
  exact buildMembers_gen_name_mem comps n i mi ci hm hc hname

/-- C10 witness: the member-name link evaluated on a concrete unnamed
component. -/
theorem C10_placeholder_global_uniqueness_witness :
    ((buildMembers [Value.mk "" "uint256" "" []] (some 0)).1[0]? =
      some ⟨"Attribute0", Value.mk "" "uint256" "" []⟩ ∧
     ([Value.mk "" "uint256" "" []] : List Value)[0]? = some (Value.mk "" "uint256" "" []) ∧
     (Value.mk "" "uint256" "" []).name = "") ∧
    (⟨"Attribute0", Value.mk "" "uint256" "" []⟩ : NamedValue).name ∈
      genNamesMembers [Value.mk "" "uint256" "" []] 0 :=
  ⟨⟨rfl, rfl, rfl⟩,
   C10_placeholder_global_uniqueness.2.2.2.2.2.2.2.1
     [Value.mk "" "uint256" "" []] 0 0
     ⟨"Attribute0", Value.mk "" "uint256" "" []⟩ (Value.mk "" "uint256" "" [])
     rfl rfl rfl⟩
